import Mathlib

/-!
# Verification of the cleared journal core

Shallow embedding of the `cleared` repository's runtime kernel: the exact
decimal type (shopspring/decimal: an arbitrary-precision coefficient times a
power of ten), entry-id utilities (`internal/id`), the journal CSV codec
(`internal/journal/csv.go`), the six-invariant validator
(`internal/journal/validate.go`), the journal service
(`internal/journal/service.go`), and the sandbox bridge callback dispatch and
`journal_add_double` primitive (`internal/sandbox`).

Conventions: Go `int` is modelled as `Int` (the 64-bit range check appears
explicitly where the source checks it, i.e. in `strconv.Atoi`); Go strings are
`String`, with character-level work done on `String.data`; Go slices are
`List`; fallible functions return `Except String` or `Option`.  File-system
state is modelled as the list of legs persisted for the month under
consideration (`Option (List Leg)`, `none` meaning the month file does not
exist); I/O primitives themselves (open/mkdir) are assumed to succeed, as the
claims under study are about the validation and append logic, not about OS
errors.  Error strings produced by the Go standard library (`strconv`,
`time`) are abbreviated to fixed texts; no claim inspects their content.
-/

/-! ## Characters and digit strings -/
/-- Is `c` an ASCII lowercase letter, the test used by both entry-group
strippers (`legID[i-1] >= 'a' && legID[i-1] <= 'z'`, byte comparisons with
code points 97 and 122). -/
def isLowerAZ (c : Char) : Bool := 97 ≤ c.toNat && c.toNat ≤ 122

/-- Is `c` an ASCII digit (code points 48 to 57). -/
def isDigitCh (c : Char) : Bool := 48 ≤ c.toNat && c.toNat ≤ 57

/-- The ASCII digit character for `d < 10`. -/
def digitChar (d : ℕ) : Char := Char.ofNat (48 + d)

/-- Numeric value of an ASCII digit character. -/
def digitVal (c : Char) : ℕ := c.toNat - 48

/-- Little-endian base-10 digits of `n`, with explicit fuel (structural
recursion; `natDigits` supplies enough fuel). -/
def natDigitsAux : ℕ → ℕ → List ℕ
  | 0, _ => []
  | fuel + 1, n => if n = 0 then [] else n % 10 :: natDigitsAux fuel (n / 10)

/-- Little-endian base-10 digits of `n` (empty for zero). -/
def natDigits (n : ℕ) : List ℕ := natDigitsAux n n

/-- Value of a little-endian digit list. -/
def ofDigitsLE : List ℕ → ℕ
  | [] => 0
  | d :: ds => d + 10 * ofDigitsLE ds

/-- Decimal rendering of a natural number, as Go `strconv`/`math/big` print
it: most-significant digit first, no leading zeros, `"0"` for zero. -/
def natRepr (n : ℕ) : List Char :=
  if n = 0 then ['0'] else ((natDigits n).reverse.map digitChar)

/-- Decimal rendering of an integer (Go `strconv.Itoa` / `big.Int.String`). -/
def intRepr (n : ℤ) : List Char :=
  if n < 0 then '-' :: natRepr n.natAbs else natRepr n.natAbs

/-- `natRepr` of `n`, left-padded with zeros to width `w`
(Go `fmt.Sprintf("%0*d", w, n)` for nonnegative `n`). -/
def padNat (w : ℕ) (n : ℕ) : List Char :=
  List.replicate (w - (natRepr n).length) '0' ++ natRepr n

/-- Go `fmt.Sprintf("%0*d", w, n)`: zero padding counts the sign. -/
def padInt (w : ℕ) (n : ℤ) : List Char :=
  if n < 0 then '-' :: padNat (w - 1) n.natAbs else padNat w n.natAbs

/-- Read a non-empty all-digit character list, most significant first
(accumulator form, as `strconv` scans). -/
def digitsValCore : List Char → ℕ → Option ℕ
  | [], acc => some acc
  | c :: cs, acc =>
    if isDigitCh c then digitsValCore cs (acc * 10 + digitVal c) else none

/-- Value of a non-empty digit string; `none` on empty input or any
non-digit character. -/
def digitsVal (cs : List Char) : Option ℕ :=
  if cs.isEmpty then none else digitsValCore cs 0

/-- Go `strconv.Atoi` (= `ParseInt(s, 10, 64)`): optional sign, a non-empty
run of digits, and the 64-bit range check.  Error texts follow the strconv
convention. -/
def atoi (s : List Char) : Except String ℤ :=
  let core : Bool → List Char → Except String ℤ := fun neg digs =>
    match digitsVal digs with
    | none => .error ("strconv.Atoi: parsing " ++ "\"" ++ String.mk s ++ "\"" ++ ": invalid syntax")
    | some v =>
      if neg then
        if v ≤ 2 ^ 63 then .ok (-(v : ℤ))
        else .error ("strconv.Atoi: parsing " ++ "\"" ++ String.mk s ++ "\"" ++ ": value out of range")
      else
        if v ≤ 2 ^ 63 - 1 then .ok (v : ℤ)
        else .error ("strconv.Atoi: parsing " ++ "\"" ++ String.mk s ++ "\"" ++ ": value out of range")
  match s with
  | [] => core false []
  | c :: rest =>
    if c = '-' then core true rest
    else if c = '+' then core false rest
    else core false (c :: rest)

/-! ## Exact decimals (shopspring/decimal)

A shopspring `Decimal` is an arbitrary-precision integer coefficient `value`
together with an exponent: the number denoted is `value * 10 ^ exp`.  All
comparisons (`Equal`, `Cmp`, `IsZero`, `Sign`) are value comparisons, never
representation comparisons. -/
structure Dec where
  val : ℤ
  exp : ℤ
deriving DecidableEq

/-- The zero decimal (Go zero value: nil coefficient read as 0, exponent 0). -/
def Dec.zero : Dec := ⟨0, 0⟩

/-- `decimal.NewFromInt`. -/
def Dec.fromInt (n : ℤ) : Dec := ⟨n, 0⟩

/-- shopspring `rescale`: change the exponent, multiplying the coefficient
when gaining scale and truncating toward zero (`big.Int.Quo`) when losing. -/
def Dec.rescale (d : Dec) (e : ℤ) : Dec :=
  if d.exp = e then d
  else if e < d.exp then ⟨d.val * 10 ^ (d.exp - e).toNat, e⟩
  else ⟨d.val.tdiv (10 ^ (e - d.exp).toNat), e⟩

/-- shopspring `Add`: rescale both arguments to the smaller exponent (which
loses nothing) and add coefficients. -/
def Dec.add (a b : Dec) : Dec :=
  let e := min a.exp b.exp
  ⟨(a.rescale e).val + (b.rescale e).val, e⟩

/-- shopspring `Mul`. -/
def Dec.mul (a b : Dec) : Dec := ⟨a.val * b.val, a.exp + b.exp⟩

/-- shopspring `IsZero` (`Sign() == 0`). -/
def Dec.isZero (d : Dec) : Bool := d.val == 0

/-- shopspring `Equal` (`Cmp == 0`): compare after rescaling to the common
(smaller) exponent. -/
def Dec.eqb (a b : Dec) : Bool :=
  let e := min a.exp b.exp
  (a.rescale e).val == (b.rescale e).val

/-- shopspring `Floor`: already integral when `exp ≥ 0`; otherwise Euclidean
division by `10^(-exp)` (`big.Int.Div`, which floors for a positive divisor). -/
def Dec.floor (d : Dec) : Dec :=
  if 0 ≤ d.exp then d else ⟨Int.fdiv d.val (10 ^ (-d.exp).toNat), 0⟩

/-- shopspring `Round(2)` (half away from zero): keep `exp = -2` unchanged,
otherwise rescale to `-3` (truncating), add `±5`, divide by ten truncating
toward zero. -/
def Dec.round2 (d : Dec) : Dec :=
  if d.exp = -2 then d
  else
    let r := d.rescale (-3)
    let v := if r.val < 0 then r.val - 5 else r.val + 5
    ⟨v.tdiv 10, -2⟩

/-- shopspring `StringFixed(2)` = `Round(2).string(false)`: sign, the
coefficient digits zero-padded to at least three, a point before the last
two. -/
def Dec.stringFixed2 (d : Dec) : List Char :=
  let r := d.round2
  let digs := padNat 3 r.val.natAbs
  let n := digs.length
  (if r.val < 0 then ['-'] else []) ++ digs.take (n - 2) ++ ['.'] ++ digs.drop (n - 2)

/-- shopspring `String()` = `string(true)`: natural rendering with trailing
zeros of the fractional part trimmed (and the point dropped when the whole
fractional part is zeros). -/
def Dec.toStr (d : Dec) : List Char :=
  if 0 ≤ d.exp then intRepr (d.rescale 0).val
  else
    let str := natRepr d.val.natAbs
    let k := (-d.exp).toNat
    let ip := if k < str.length then str.take (str.length - k) else ['0']
    let fp := if k < str.length then str.drop (str.length - k)
              else List.replicate (k - str.length) '0' ++ str
    let fp := (fp.reverse.dropWhile (fun c => c == '0')).reverse
    (if d.val < 0 then ['-'] else []) ++ ip ++ (if fp.isEmpty then [] else '.' :: fp)

/-! ## String splitting (Go strings package, character separators) -/
/-- Split at the first occurrence of `sep`, if any. -/
def splitOnceAt (sep : Char) : List Char → Option (List Char × List Char)
  | [] => none
  | c :: r =>
    if c == sep then some ([], r)
    else (splitOnceAt sep r).map (fun p => (c :: p.1, p.2))

/-- Go `strings.SplitN(s, sep, n)` for `n ≥ 1` and a one-character
separator. -/
def splitNChar (sep : Char) : ℕ → List Char → List (List Char)
  | 0, _ => []
  | 1, cs => [cs]
  | n + 2, cs =>
    match splitOnceAt sep cs with
    | none => [cs]
    | some (a, b) => a :: splitNChar sep (n + 1) b

/-- Go `strings.Split(s, sep)` for a one-character separator. -/
def splitAll (sep : Char) : List Char → List (List Char)
  | [] => [[]]
  | c :: rest =>
    let r := splitAll sep rest
    if c == sep then [] :: r
    else
      match r with
      | [] => [[c]]
      | h :: t => (c :: h) :: t

/-- A signed big integer from a string, as `big.Int.SetString(s, 10)` on the
number part of `decimal.NewFromString`: optional sign, non-empty digit run,
no size limit. -/
def bigIntFromStr (cs : List Char) : Option ℤ :=
  match cs with
  | [] => none
  | c :: rest =>
    if c = '-' then
      match digitsVal rest with
      | some v => some (-(v : ℤ))
      | none => none
    else if c = '+' then
      match digitsVal rest with
      | some v => some ((v : ℤ))
      | none => none
    else
      match digitsVal (c :: rest) with
      | some v => some ((v : ℤ))
      | none => none

/-- `decimal.NewFromString`, restricted to the plain fragment without
scientific notation (the codec only ever parses and prints plain forms):
split on `.`; one part means an integer, two parts concatenate coefficient
digits with exponent `-len(frac)`, more error out. -/
def Dec.fromStr (cs : List Char) : Except String Dec :=
  match splitAll '.' cs with
  | [ip] =>
    match bigIntFromStr ip with
    | some v => .ok ⟨v, 0⟩
    | none => .error ("can't convert " ++ String.mk cs ++ " to decimal")
  | [ip, fp] =>
    match bigIntFromStr (ip ++ fp) with
    | some v => .ok ⟨v, -(fp.length : ℤ)⟩
    | none => .error ("can't convert " ++ String.mk cs ++ " to decimal")
  | _ => .error ("can't convert " ++ String.mk cs ++ " to decimal: too many .s")

/-! ## Entry identifiers (internal/id) -/
/-- Go `%q` on an identifier (no characters needing escapes occur in ids). -/
def quoteStr (s : String) : String := "\"" ++ s ++ "\""

/-- `id.FormatEntryID`: `fmt.Sprintf("%04d-%02d-%03d", year, month, seq)`. -/
def formatEntryID (year month seq : ℤ) : String :=
  ⟨padInt 4 year ++ '-' :: padInt 2 month ++ '-' :: padInt 3 seq⟩

/-- `id.FormatLegID`: `entryID + string(rune('a'+leg))` (modelled for leg
offsets that denote valid code points). -/
def formatLegID (entryID : String) (leg : ℤ) : String :=
  ⟨entryID.data ++ [Char.ofNat (97 + leg).toNat]⟩

/-- `id.EntryGroup`: strip the trailing run of lowercase letters
(the Go index loop, expressed as dropWhile on the reversed characters). -/
def entryGroup (s : String) : String :=
  if s.data.length = 0 then "" else ⟨(s.data.reverse.dropWhile isLowerAZ).reverse⟩

/-- `id.ParseEntryID`: strip the leg suffix, split on `-` into exactly three
parts, read each with `strconv.Atoi`. -/
def parseEntryID (s : String) : Except String (ℤ × ℤ × ℤ) :=
  let base := entryGroup s
  match splitNChar '-' 3 base.data with
  | [a, b, c] =>
    match atoi a with
    | .error e => .error ("invalid year in entry ID " ++ quoteStr s ++ ": " ++ e)
    | .ok y =>
      match atoi b with
      | .error e => .error ("invalid month in entry ID " ++ quoteStr s ++ ": " ++ e)
      | .ok m =>
        match atoi c with
        | .error e => .error ("invalid sequence in entry ID " ++ quoteStr s ++ ": " ++ e)
        | .ok q => .ok (y, m, q)
  | _ => .error ("invalid entry ID format: " ++ quoteStr s)

/-! ## Dates (the fragment of time.Time the journal uses) -/
/-- A Go `time.Time` as the journal consumes it: its calendar components. -/
structure GDate where
  year : ℤ
  month : ℤ
  day : ℤ
deriving DecidableEq

/-- `t.Format("2006-01-02")` for a date whose components came from a parsed
date (components printed with zero padding). -/
def formatDate (d : GDate) : String :=
  ⟨padInt 4 d.year ++ '-' :: padInt 2 d.month ++ '-' :: padInt 2 d.day⟩

def isLeapYear (y : ℤ) : Bool := y % 4 == 0 && (y % 100 != 0 || y % 400 == 0)

def daysInMonth (y m : ℤ) : ℤ :=
  if m = 2 then (if isLeapYear y then 29 else 28)
  else if m = 4 ∨ m = 6 ∨ m = 9 ∨ m = 11 then 30
  else 31

/-- `time.Parse("2006-01-02", s)`: exactly four year digits, dash, two month
digits, dash, two day digits, with month and day range checks.  (Error text
abbreviated.) -/
def parseGoDate (s : String) : Except String GDate :=
  match s.data with
  | [y1, y2, y3, y4, '-', m1, m2, '-', d1, d2] =>
    if (isDigitCh y1 && isDigitCh y2 && isDigitCh y3 && isDigitCh y4
        && isDigitCh m1 && isDigitCh m2 && isDigitCh d1 && isDigitCh d2) then
      let y : ℤ := (((digitVal y1 * 10 + digitVal y2) * 10 + digitVal y3) * 10 + digitVal y4 : ℕ)
      let m : ℤ := ((digitVal m1 * 10 + digitVal m2 : ℕ) : ℤ)
      let dd : ℤ := ((digitVal d1 * 10 + digitVal d2 : ℕ) : ℤ)
      if m < 1 ∨ 12 < m then .error ("parsing time " ++ quoteStr s ++ ": month out of range")
      else if dd < 1 ∨ daysInMonth y m < dd then .error ("parsing time " ++ quoteStr s ++ ": day out of range")
      else .ok ⟨y, m, dd⟩
    else .error ("parsing time " ++ quoteStr s ++ ": cannot parse")
  | _ => .error ("parsing time " ++ quoteStr s ++ ": cannot parse")

/-! ## The Leg data model (internal/model/journal.go) -/
def statusAutoConfirmed : String := "auto-confirmed"

def statusPendingReview : String := "pending-review"

def statusUserConfirmed : String := "user-confirmed"

def statusUserCorrected : String := "user-corrected"

def statusVoided : String := "voided"

def statusBootstrapConfirmed : String := "bootstrap-confirmed"

/-- One row of journal.csv. -/
structure Leg where
  entryID : String
  date : GDate
  accountID : ℤ
  description : String
  debit : Dec
  credit : Dec
  counterparty : String
  reference : String
  confidence : Dec
  status : String
  evidence : String
  receiptHash : String
  tags : String
  notes : String
deriving DecidableEq

/-- Length of the trailing run of lowercase letters (the count of loop
iterations in the Go `i--` loops). -/
def trailingLowerLen : List Char → ℕ
  | [] => 0
  | c :: cs =>
    let t := trailingLowerLen cs
    if t = cs.length && isLowerAZ c then cs.length + 1 else t

/-- Go `strings.TrimRight` with a character cutset. -/
def trimRightIn (s : String) (cutset : List Char) : String :=
  ⟨(s.data.reverse.dropWhile (fun c => cutset.contains c)).reverse⟩

/-- `model.Leg.EntryGroup`: the same index loop, finished with
`strings.TrimRight(id[:i], "")` (an empty cutset). -/
def Leg.entryGroup (l : Leg) : String :=
  let s := l.entryID
  if s.data.length = 0 then ""
  else trimRightIn ⟨s.data.take (s.data.length - trailingLowerLen s.data)⟩ []

/-! ## The invariant validator (internal/journal/validate.go) -/
/-- A single invariant violation (`journal.ValidationError`). -/
structure ValidationError where
  invariant : ℤ
  entryID : String
  description : String
deriving DecidableEq

def intStr (n : ℤ) : String := String.mk (intRepr n)

/-- `ValidationError.Error()`: `fmt.Sprintf("invariant %d [%s]: %s", ...)`. -/
def ValidationError.errString (e : ValidationError) : String :=
  "invariant " ++ intStr e.invariant ++ " [" ++ e.entryID ++ "]: " ++ e.description

def decHundred : Dec := Dec.fromInt 100

/-- `journal.ValidateLegs`: enforce the six invariants over a set of legs for
one month, accumulating every issue in order.  The Go function appends to one
slice across a group pass (invariant 1), a per-leg pass (invariants 2, 3, 4,
6), and an invariant-5 post-pass (parse failures, then missing sequence
numbers).  The Go `map[string][]Leg` grouping is modelled by filtering on the
group key, and the `map[int]bool` sequence set by an insert-if-new list
(only membership and size are consumed). -/
def validateLegs (legs : List Leg) (accountExists : ℤ → Bool) (year month : ℤ) :
    List ValidationError :=
  let groupOrder := legs.foldl
    (fun acc leg => if acc.contains leg.entryGroup then acc else acc ++ [leg.entryGroup]) []
  let errs := groupOrder.foldl (fun errs g =>
    let groupLegs := legs.filter (fun l => l.entryGroup == g)
    let totalDebit := groupLegs.foldl (fun t l => t.add l.debit) Dec.zero
    let totalCredit := groupLegs.foldl (fun t l => t.add l.credit) Dec.zero
    if totalDebit.eqb totalCredit then errs
    else errs ++ [⟨1, g, "debits (" ++ String.mk totalDebit.stringFixed2
                    ++ ") != credits (" ++ String.mk totalCredit.stringFixed2 ++ ")"⟩]) []
  let errs := legs.foldl (fun errs leg =>
    let errs := if (!leg.debit.isZero) == (!leg.credit.isZero) then
        errs ++ [⟨2, leg.entryID, "leg must have exactly one of debit or credit"⟩]
      else errs
    let errs := if !(accountExists leg.accountID) then
        errs ++ [⟨3, leg.entryID, "unknown account " ++ intStr leg.accountID⟩]
      else errs
    let errs := if leg.date.year != year || leg.date.month != month then
        errs ++ [⟨4, leg.entryID, "date " ++ formatDate leg.date ++ " not in "
                   ++ String.mk (padInt 4 year) ++ "-" ++ String.mk (padInt 2 month)⟩]
      else errs
    let errs := if !leg.debit.isZero
        && !((leg.debit.mul decHundred).eqb (leg.debit.mul decHundred).floor) then
        errs ++ [⟨6, leg.entryID, "debit " ++ String.mk leg.debit.toStr
                   ++ " has more than 2 decimal places"⟩]
      else errs
    let errs := if !leg.credit.isZero
        && !((leg.credit.mul decHundred).eqb (leg.credit.mul decHundred).floor) then
        errs ++ [⟨6, leg.entryID, "credit " ++ String.mk leg.credit.toStr
                   ++ " has more than 2 decimal places"⟩]
      else errs
    errs) errs
  let p := legs.foldl (fun (p : List ValidationError × List ℤ) leg =>
    match parseEntryID leg.entryID with
    | .error e => (p.1 ++ [⟨5, leg.entryID, "invalid entry ID: " ++ e⟩], p.2)
    | .ok r => (p.1, if p.2.contains r.2.2 then p.2 else p.2 ++ [r.2.2])) (errs, [])
  if 0 < p.2.length then
    (List.range p.2.length).foldl (fun errs (i : ℕ) =>
      let s : ℤ := (i : ℤ) + 1
      if !(p.2.contains s) then
        errs ++ [⟨5, "seq " ++ intStr s, "missing sequence " ++ intStr s
                   ++ " in 1.." ++ intStr p.2.length⟩]
      else errs) p.1
  else p.1

/-! ### The validator's output, decomposed (spec-side formulations) -/
/-- Entry groups in first-seen order (the Go `groupOrder` slice). -/
def firstSeenGroups (legs : List Leg) : List String :=
  legs.foldl
    (fun acc leg => if acc.contains leg.entryGroup then acc else acc ++ [leg.entryGroup]) []

/-- The invariant-1 balance issue, if any, of one entry group. -/
def groupIssue (legs : List Leg) (g : String) : List ValidationError :=
  let groupLegs := legs.filter (fun l => l.entryGroup == g)
  let totalDebit := groupLegs.foldl (fun t l => t.add l.debit) Dec.zero
  let totalCredit := groupLegs.foldl (fun t l => t.add l.credit) Dec.zero
  if totalDebit.eqb totalCredit then []
  else [⟨1, g, "debits (" ++ String.mk totalDebit.stringFixed2
          ++ ") != credits (" ++ String.mk totalCredit.stringFixed2 ++ ")"⟩]

/-- The invariant-2/3/4/6 issues of a single leg, in check order. -/
def perLegIssues (accountExists : ℤ → Bool) (year month : ℤ) (leg : Leg) :
    List ValidationError :=
  (if (!leg.debit.isZero) == (!leg.credit.isZero) then
      [⟨2, leg.entryID, "leg must have exactly one of debit or credit"⟩]
    else [])
  ++ ((if !(accountExists leg.accountID) then
      [⟨3, leg.entryID, "unknown account " ++ intStr leg.accountID⟩]
    else [])
  ++ ((if leg.date.year != year || leg.date.month != month then
      [⟨4, leg.entryID, "date " ++ formatDate leg.date ++ " not in "
         ++ String.mk (padInt 4 year) ++ "-" ++ String.mk (padInt 2 month)⟩]
    else [])
  ++ ((if !leg.debit.isZero
      && !((leg.debit.mul decHundred).eqb (leg.debit.mul decHundred).floor) then
      [⟨6, leg.entryID, "debit " ++ String.mk leg.debit.toStr
         ++ " has more than 2 decimal places"⟩]
    else [])
  ++ (if !leg.credit.isZero
      && !((leg.credit.mul decHundred).eqb (leg.credit.mul decHundred).floor) then
      [⟨6, leg.entryID, "credit " ++ String.mk leg.credit.toStr
         ++ " has more than 2 decimal places"⟩]
    else []))))

/-- The invariant-5 parse-failure issue of one leg (empty when the id
parses). -/
def parseIssue (leg : Leg) : List ValidationError :=
  match parseEntryID leg.entryID with
  | .error e => [⟨5, leg.entryID, "invalid entry ID: " ++ e⟩]
  | .ok _ => []

/-- The set of parsed base sequence numbers, as a duplicate-free list in
first-seen order. -/
def seqSet (legs : List Leg) : List ℤ :=
  legs.foldl (fun s leg =>
    match parseEntryID leg.entryID with
    | .error _ => s
    | .ok r => if s.contains r.2.2 then s else s ++ [r.2.2]) []

/-- The invariant-5 missing-sequence issues: one per number of `1..|S|` not
in `S`, in increasing order, and none when `S` is empty. -/
def missingSeqIssues (legs : List Leg) : List ValidationError :=
  let seen := seqSet legs
  if 0 < seen.length then
    (List.range seen.length).flatMap (fun i =>
      let s : ℤ := (i : ℤ) + 1
      if !(seen.contains s) then
        [⟨5, "seq " ++ intStr s, "missing sequence " ++ intStr s
           ++ " in 1.." ++ intStr seen.length⟩]
      else [])
  else []

/-- shopspring `Sign`: the sign of the coefficient (the decimal is positive
iff this is `1`). -/
def Dec.sign (d : Dec) : ℤ := Int.sign d.val

/-- A leg with a negative debit and a zero credit: neither `debit > 0` nor
`credit > 0` holds, yet both the debit is non-zero and the credit is zero, so
the code's non-zero test is satisfied exactly once and no invariant-2 issue
is raised. -/
def legNegDebit : Leg :=
  { entryID := "2025-01-001a", date := ⟨2025, 1, 15⟩, accountID := 1000,
    description := "coffee", debit := ⟨-1, 0⟩, credit := Dec.zero,
    counterparty := "", reference := "", confidence := Dec.zero,
    status := statusPendingReview, evidence := "", receiptHash := "",
    tags := "", notes := "" }

/-! ### Invariant 5 (C3) -/
/-- Does the leg's entry id parse (`id.ParseEntryID` succeeds)? -/
def parsesOK (leg : Leg) : Bool :=
  match parseEntryID leg.entryID with
  | .ok _ => true
  | .error _ => false

/-- The parse error text for a leg whose id does not parse. -/
def parseFailText (leg : Leg) : String :=
  match parseEntryID leg.entryID with
  | .error e => e
  | .ok _ => ""

/-! ## The journal service (internal/journal/service.go)

The month's journal file is modelled as `Option (List Leg)` — `none` when the
file does not exist.  OS-level failures (mkdir, open, write) are not
modelled; the claims under study concern the validation / append logic. -/
/-- `journal.AddDoubleParams`. -/
structure AddDoubleParams where
  date : GDate
  description : String
  debitAccount : ℤ
  creditAccount : ℤ
  amount : Dec
  counterparty : String
  reference : String
  confidence : Dec
  status : String
  evidence : String
  tags : String
  notes : String

/-- `Service.ReadMonth` on the modelled state: an absent file reads as an
empty list and is not an error. -/
def readMonth (file : Option (List Leg)) : List Leg :=
  match file with
  | none => []
  | some legs => legs

/-- `Service.NextEntrySeq` on the month's legs: one more than the running
maximum (started at zero) of the base sequences of the legs whose entry id
parses. -/
def nextEntrySeq (legs : List Leg) : ℤ :=
  (legs.foldl (fun maxSeq leg =>
    match parseEntryID leg.entryID with
    | .error _ => maxSeq
    | .ok r => if r.2.2 > maxSeq then r.2.2 else maxSeq) 0) + 1

/-- The two legs `Service.AddDouble` synthesizes: debit leg `…a`, credit leg
`…b`; fields not set in the Go literal are Go zero values (zero decimal,
empty string). -/
def synthLegs (params : AddDoubleParams) (entryID : String) : List Leg :=
  [ { entryID := formatLegID entryID 0, date := params.date,
      accountID := params.debitAccount, description := params.description,
      debit := params.amount, credit := Dec.zero,
      counterparty := params.counterparty, reference := params.reference,
      confidence := params.confidence, status := params.status,
      evidence := params.evidence, receiptHash := "", tags := params.tags,
      notes := params.notes },
    { entryID := formatLegID entryID 1, date := params.date,
      accountID := params.creditAccount, description := params.description,
      debit := Dec.zero, credit := params.amount,
      counterparty := params.counterparty, reference := params.reference,
      confidence := params.confidence, status := params.status,
      evidence := params.evidence, receiptHash := "", tags := params.tags,
      notes := params.notes } ]

/-- `Service.AddDouble`: derive the month from the date, allocate the next
sequence, synthesize the two legs, read the persisted legs, validate the
union, and either fail with the aggregated message leaving the file
untouched, or append exactly the two new rows (creating the file, with its
header, when absent).  Returns the produced result together with the month
file afterwards. -/
def addDouble (accountExists : ℤ → Bool) (params : AddDoubleParams)
    (file : Option (List Leg)) : Except String String × Option (List Leg) :=
  let year := params.date.year
  let month := params.date.month
  let seq := nextEntrySeq (readMonth file)
  let entryID := formatEntryID year month seq
  let newLegs := synthLegs params entryID
  let existing := readMonth file
  let allLegs := existing ++ newLegs
  let verrs := validateLegs allLegs accountExists year month
  if verrs.length > 0 then
    (.error ("validation failed: "
      ++ String.intercalate "; " (verrs.map ValidationError.errString)), file)
  else
    (.ok entryID, some (existing ++ newLegs))

/-- A leg whose entry id parses with a negative base sequence (`Atoi`
accepts a sign). -/
def legNegSeq : Leg :=
  { entryID := "2025-01--5", date := ⟨2025, 1, 5⟩, accountID := 1,
    description := "", debit := ⟨500, -2⟩, credit := Dec.zero,
    counterparty := "", reference := "", confidence := Dec.zero,
    status := statusPendingReview, evidence := "", receiptHash := "",
    tags := "", notes := "" }

/-! ### Decimal lemmas for the codec round trip (C7) -/
/-- The invariant-6 test from the validator, as a predicate: the value has at
most two decimal places. -/
def Dec.twoPlaces (d : Dec) : Bool :=
  (d.mul decHundred).eqb (d.mul decHundred).floor

/-- Calendar components a Go `time.Time` can both format into `YYYY-MM-DD`
and reparse: a four-digit year and a valid month/day pair. -/
def GDate.inRange (d : GDate) : Prop :=
  0 ≤ d.year ∧ d.year ≤ 9999 ∧ 1 ≤ d.month ∧ d.month ≤ 12
    ∧ 1 ≤ d.day ∧ d.day ≤ daysInMonth d.year d.month

/-! ## The journal CSV codec (internal/journal/csv.go) -/
/-- `journal.MarshalLeg`: the fixed 14-column row.  Decimal cells are left
empty when the value is zero; debit and credit render with `StringFixed(2)`,
confidence with `String()`. -/
def marshalLeg (leg : Leg) : List String :=
  [ leg.entryID,
    formatDate leg.date,
    String.mk (intRepr leg.accountID),
    leg.description,
    if leg.debit.isZero then "" else String.mk leg.debit.stringFixed2,
    if leg.credit.isZero then "" else String.mk leg.credit.stringFixed2,
    leg.counterparty,
    leg.reference,
    if leg.confidence.isZero then "" else String.mk leg.confidence.toStr,
    leg.status,
    leg.evidence,
    leg.receiptHash,
    leg.tags,
    leg.notes ]

/-- `journal.UnmarshalLeg`: require exactly 14 fields; parse the date, the
account id, and the three decimal cells (an empty cell reads as zero),
failing with the first field error as the Go code does. -/
def unmarshalLeg (record : List String) : Except String Leg :=
  match record with
  | [entryID, dateS, acctS, desc, debitS, creditS, cparty, ref, confS,
     statusS, evid, receipt, tags, notes] =>
    match parseGoDate dateS with
    | .error e => .error ("parsing date " ++ quoteStr dateS ++ ": " ++ e)
    | .ok date =>
      match atoi acctS.data with
      | .error e => .error ("parsing account_id " ++ quoteStr acctS ++ ": " ++ e)
      | .ok accountID =>
        match (if debitS = "" then Except.ok Dec.zero else Dec.fromStr debitS.data) with
        | .error e => .error ("parsing debit " ++ quoteStr debitS ++ ": " ++ e)
        | .ok debit =>
          match (if creditS = "" then Except.ok Dec.zero else Dec.fromStr creditS.data) with
          | .error e => .error ("parsing credit " ++ quoteStr creditS ++ ": " ++ e)
          | .ok credit =>
            match (if confS = "" then Except.ok Dec.zero else Dec.fromStr confS.data) with
            | .error e => .error ("parsing confidence " ++ quoteStr confS ++ ": " ++ e)
            | .ok confidence =>
              .ok { entryID := entryID, date := date, accountID := accountID,
                    description := desc, debit := debit, credit := credit,
                    counterparty := cparty, reference := ref,
                    confidence := confidence, status := statusS,
                    evidence := evid, receiptHash := receipt, tags := tags,
                    notes := notes }
  | _ => .error ("expected 14 fields, got " ++ intStr record.length)

/-- A concrete leg exercising the round trip: debit 123.45, credit 0. -/
def legRound : Leg :=
  { entryID := "2025-01-001a", date := ⟨2025, 1, 15⟩, accountID := 1000,
    description := "supplies", debit := ⟨12345, -2⟩, credit := Dec.zero,
    counterparty := "", reference := "", confidence := ⟨95, -2⟩,
    status := statusPendingReview, evidence := "", receiptHash := "",
    tags := "", notes := "" }

/-! ## The sandbox bridge callback dispatch (internal/sandbox/bridge.go) -/
/-- JSON values as the bridge hands them to primitive handlers.  JSON
numbers are modelled on the integral fragment (Go delivers them as
`float64`, which is exact on integers; no claim under study involves a
non-integral number). -/
inductive JVal where
  | null
  | bool (b : Bool)
  | num (n : ℤ)
  | str (s : String)
  | arr (elems : List JVal)
  | obj (fields : List (String × JVal))

/-- `sandbox.RPCError` (the `data` field is never set by the host). -/
structure RPCError where
  code : ℤ
  message : String
deriving DecidableEq

/-- `sandbox.Response`: `Result` carries no omitempty, so a `nil` result is
serialized as JSON null (`JVal.null` here); `Error` is a nullable pointer. -/
structure Response where
  result : JVal
  error : Option RPCError
  id : JVal

/-- `sandbox.PrimitiveHandler`. -/
def PrimitiveHandler : Type := List JVal → List (String × JVal) → Except String JVal

/-- One child-originated callback frame, already unmarshalled. -/
structure CallbackMsg where
  method : String
  args : List JVal
  kwargs : List (String × JVal)
  id : JVal

/-- The `b.handlers[msg.Method]` map lookup (registration keys are
unique). -/
def lookupHandler (handlers : List (String × PrimitiveHandler)) (method : String) :
    Option PrimitiveHandler :=
  (handlers.find? (fun p => p.1 == method)).map (fun p => p.2)

/-- `Bridge.handleCallback`: the response the host sends back for one
callback. -/
def handleCallback (handlers : List (String × PrimitiveHandler))
    (msg : CallbackMsg) : Response :=
  match lookupHandler handlers msg.method with
  | none => ⟨JVal.null, some ⟨-32601, "unknown primitive: " ++ msg.method⟩, msg.id⟩
  | some handler =>
    match handler msg.args msg.kwargs with
    | .error e => ⟨JVal.null, some ⟨-32000, e⟩, msg.id⟩
    | .ok result => ⟨result, none, msg.id⟩

/-- A concrete handler table: one succeeding and one failing primitive. -/
def handlersW : List (String × PrimitiveHandler) :=
  [("ping", fun _ _ => .ok (JVal.str "pong")),
   ("boom", fun _ _ => .error "kaputt")]

/-! ## The journal_add_double primitive (internal/sandbox/primitives.go) -/
/-- Go `%T` on the interface values the bridge can deliver. -/
def jvalTypeName : JVal → String
  | .null => "<nil>"
  | .bool _ => "bool"
  | .num _ => "float64"
  | .str _ => "string"
  | .arr _ => "[]interface {}"
  | .obj _ => "map[string]interface {}"

/-- Go map indexing `kwargs[key]` (absent keys read as `nil`, modelled as
`none`). -/
def lookupKw (kwargs : List (String × JVal)) (key : String) : Option JVal :=
  (kwargs.find? (fun p => p.1 == key)).map (fun p => p.2)

/-- `sandbox.parseDate`: a string assertion then `time.Parse`. -/
def parseDateArg (v : Option JVal) : Except String GDate :=
  match v with
  | some (.str s) => parseGoDate s
  | some other => .error ("expected string, got " ++ jvalTypeName other)
  | none => .error ("expected string, got <nil>")

/-- `sandbox.parseDecimal`: `float64` (exact here on the integral fragment),
string, or nil; anything else errors.  An erroneous parse yields the zero
value alongside the error, as in Go. -/
def parseDecimalArg (v : Option JVal) : Except String Dec :=
  match v with
  | some (.num n) => .ok (Dec.fromInt n)
  | some (.str s) => Dec.fromStr s.data
  | some .null => .ok Dec.zero
  | none => .ok Dec.zero
  | some other => .error ("cannot convert " ++ jvalTypeName other ++ " to decimal")

/-- `sandbox.stringArg`: string assertion with empty-string fallback. -/
def stringArgKw (kwargs : List (String × JVal)) (key : String) : String :=
  match lookupKw kwargs key with
  | some (.str s) => s
  | _ => ""

/-- `sandbox.toInt` applied to a kwarg (`intArg`). -/
def intArgKw (kwargs : List (String × JVal)) (key : String) : ℤ :=
  match lookupKw kwargs key with
  | some (.num n) => n
  | _ => 0

/-- `Runtime.journalAddDouble`: coercion of the keyword arguments, the
status defaulting, and the call into `Service.AddDouble`; returns the
primitive's result together with the month file afterwards. -/
def journalAddDouble (accountExists : ℤ → Bool) (kwargs : List (String × JVal))
    (file : Option (List Leg)) : Except String JVal × Option (List Leg) :=
  match parseDateArg (lookupKw kwargs "date") with
  | .error e => (.error ("invalid date: " ++ e), file)
  | .ok date =>
    match parseDecimalArg (lookupKw kwargs "amount") with
    | .error e => (.error ("invalid amount: " ++ e), file)
    | .ok amount =>
      let confidence := match parseDecimalArg (lookupKw kwargs "confidence") with
        | .ok c => c
        | .error _ => Dec.zero
      let status0 := match lookupKw kwargs "status" with
        | some (.str s) => s
        | _ => ""
      let status := if status0 = "" then statusPendingReview else status0
      let params : AddDoubleParams := {
        date := date,
        description := stringArgKw kwargs "description",
        debitAccount := intArgKw kwargs "debit_account",
        creditAccount := intArgKw kwargs "credit_account",
        amount := amount,
        counterparty := stringArgKw kwargs "counterparty",
        reference := stringArgKw kwargs "reference",
        confidence := confidence,
        status := status,
        evidence := stringArgKw kwargs "evidence",
        tags := stringArgKw kwargs "tags",
        notes := stringArgKw kwargs "notes" }
      let r := addDouble accountExists params file
      match r.1 with
      | .error e => (.error e, r.2)
      | .ok entryID =>
        (.ok (JVal.obj [("entry_id", JVal.str entryID), ("success", JVal.bool true)]), r.2)

/-! ### Digit round-trip lemmas -/
theorem natDigitsAux_lt_ten : ∀ fuel n, ∀ d ∈ natDigitsAux fuel n, d < 10 := by
  intro fuel
  induction fuel with
  | zero => intro n d hd; simp [natDigitsAux] at hd
  | succ f ih =>
    intro n d hd
    by_cases h : n = 0
    · simp [natDigitsAux, h] at hd
    · simp only [natDigitsAux, if_neg h, List.mem_cons] at hd
      rcases hd with rfl | hd
      · exact Nat.mod_lt _ (by norm_num)
      · exact ih _ _ hd

theorem ofDigitsLE_natDigitsAux : ∀ fuel n, n ≤ fuel →
    ofDigitsLE (natDigitsAux fuel n) = n := by
  intro fuel
  induction fuel with
  | zero => intro n h; interval_cases n; simp [natDigitsAux, ofDigitsLE]
  | succ f ih =>
    intro n h
    by_cases h0 : n = 0
    · simp [natDigitsAux, h0, ofDigitsLE]
    · have hlt : n / 10 ≤ f := by
        have : n / 10 < n := Nat.div_lt_self (Nat.pos_of_ne_zero h0) (by norm_num)
        omega
      simp only [natDigitsAux, if_neg h0, ofDigitsLE, ih _ hlt]
      exact Nat.mod_add_div n 10

theorem ofDigitsLE_natDigits (n : ℕ) : ofDigitsLE (natDigits n) = n :=
  ofDigitsLE_natDigitsAux n n le_rfl

theorem natDigits_lt_ten (n : ℕ) : ∀ d ∈ natDigits n, d < 10 :=
  natDigitsAux_lt_ten n n

theorem natDigits_ne_nil {n : ℕ} (h : n ≠ 0) : natDigits n ≠ [] := by
  intro hnil
  have := ofDigitsLE_natDigits n
  rw [hnil] at this
  simp [ofDigitsLE] at this
  exact h this.symm

theorem digitVal_digitChar_all : ∀ d, d < 10 → digitVal (digitChar d) = d := by decide

theorem isDigitCh_digitChar_all : ∀ d, d < 10 → isDigitCh (digitChar d) = true := by decide

theorem digitChar_not_lower_all : ∀ d, d < 10 → isLowerAZ (digitChar d) = false := by decide

theorem digitVal_digitChar {d : ℕ} (h : d < 10) : digitVal (digitChar d) = d :=
  digitVal_digitChar_all d h

theorem isDigitCh_digitChar {d : ℕ} (h : d < 10) : isDigitCh (digitChar d) = true :=
  isDigitCh_digitChar_all d h

theorem digitChar_not_lower {d : ℕ} (h : d < 10) : isLowerAZ (digitChar d) = false :=
  digitChar_not_lower_all d h

/-- Every character of `natRepr n` is an ASCII digit. -/
theorem natRepr_all_digits (n : ℕ) : ∀ c ∈ natRepr n, isDigitCh c = true := by
  intro c hc
  unfold natRepr at hc
  by_cases h : n = 0
  · simp [h] at hc; subst hc; decide
  · simp only [if_neg h, List.mem_map, List.mem_reverse] at hc
    obtain ⟨d, hd, rfl⟩ := hc
    exact isDigitCh_digitChar (natDigits_lt_ten n d hd)

theorem natRepr_ne_nil (n : ℕ) : natRepr n ≠ [] := by
  unfold natRepr
  by_cases h : n = 0
  · simp [h]
  · simp only [if_neg h, ne_eq, List.map_eq_nil_iff, List.reverse_eq_nil_iff]
    exact natDigits_ne_nil h

/-- Accumulator form of the digit scan evaluated on an all-digit list. -/
theorem digitsValCore_all_digits : ∀ cs acc, (∀ c ∈ cs, isDigitCh c = true) →
    digitsValCore cs acc = some (cs.foldl (fun a c => a * 10 + digitVal c) acc) := by
  intro cs
  induction cs with
  | nil => intro acc _; simp [digitsValCore]
  | cons c cs ih =>
    intro acc h
    have hc := h c (by simp)
    simp only [digitsValCore, hc, if_true, List.foldl_cons]
    exact ih _ (fun x hx => h x (by simp [hx]))

/-- Folding the big-endian scan over reversed digits computes the
little-endian value, shifted into the accumulator. -/
theorem foldl_reverse_ofDigitsLE :
    ∀ (l : List ℕ), (∀ d ∈ l, d < 10) → ∀ (a : ℕ),
      (l.reverse.map digitChar).foldl (fun x c => x * 10 + digitVal c) a
        = a * 10 ^ l.length + ofDigitsLE l := by
  intro l
  induction l with
  | nil => intro _ a; simp [ofDigitsLE]
  | cons d ds ih =>
    intro hds a
    have hd : d < 10 := hds d (by simp)
    simp only [List.reverse_cons, List.map_append, List.foldl_append,
      ih (fun x hx => hds x (by simp [hx])) a,
      List.map_cons, List.map_nil, List.foldl_cons, List.foldl_nil,
      digitVal_digitChar hd, ofDigitsLE, List.length_cons]
    ring

/-- `digitsVal` inverts `natRepr`. -/
theorem digitsVal_natRepr (n : ℕ) : digitsVal (natRepr n) = some n := by
  have hne := natRepr_ne_nil n
  have hdigs := natRepr_all_digits n
  unfold digitsVal
  rw [if_neg (by simpa [List.isEmpty_iff] using hne)]
  rw [digitsValCore_all_digits _ _ hdigs]
  congr 1
  unfold natRepr
  by_cases h : n = 0
  · simp [h, digitVal]
  · rw [if_neg h]
    rw [foldl_reverse_ofDigitsLE (natDigits n) (natDigits_lt_ten n) 0]
    simp [ofDigitsLE_natDigits]

/-! ### Entry-group stripping lemmas -/
theorem digit_not_lower (c : Char) (h : isDigitCh c = true) : isLowerAZ c = false := by
  simp only [isDigitCh, Bool.and_eq_true, decide_eq_true_eq] at h
  simp only [isLowerAZ]
  have : ¬ (97 ≤ c.toNat) := by omega
  simp [this]

theorem trailingLowerLen_cons (c : Char) (cs : List Char) :
    trailingLowerLen (c :: cs)
      = if trailingLowerLen cs = cs.length ∧ isLowerAZ c = true then cs.length + 1
        else trailingLowerLen cs := by
  simp only [trailingLowerLen]
  by_cases hP : trailingLowerLen cs = cs.length
  · by_cases hC : isLowerAZ c = true
    · simp [hP, hC]
    · simp [hP, hC]
  · simp [hP]

theorem trailingLowerLen_le : ∀ cs : List Char, trailingLowerLen cs ≤ cs.length := by
  intro cs
  induction cs with
  | nil => simp [trailingLowerLen]
  | cons c cs ih =>
    rw [trailingLowerLen_cons]
    by_cases h : trailingLowerLen cs = cs.length ∧ isLowerAZ c = true
    · simp [h]
    · rw [if_neg h]; simp; omega

theorem trailingLowerLen_eq_iff : ∀ cs : List Char,
    trailingLowerLen cs = cs.length ↔ ∀ c ∈ cs, isLowerAZ c = true := by
  intro cs
  induction cs with
  | nil => simp [trailingLowerLen]
  | cons c cs ih =>
    rw [trailingLowerLen_cons]
    constructor
    · intro h
      by_cases hc : trailingLowerLen cs = cs.length ∧ isLowerAZ c = true
      · intro x hx
        rcases List.mem_cons.1 hx with rfl | hx
        · exact hc.2
        · exact ih.1 hc.1 x hx
      · rw [if_neg hc] at h
        have := trailingLowerLen_le cs
        simp only [List.length_cons] at h
        omega
    · intro h
      have hc : trailingLowerLen cs = cs.length ∧ isLowerAZ c = true :=
        ⟨ih.2 (fun x hx => h x (by simp [hx])), h c (by simp)⟩
      simp [hc]

/-- The Go right-strip loop and dropWhile-on-reverse compute the same
prefix. -/
theorem take_eq_dropWhile_rev : ∀ cs : List Char,
    cs.take (cs.length - trailingLowerLen cs) = (cs.reverse.dropWhile isLowerAZ).reverse := by
  intro cs
  induction cs with
  | nil => simp
  | cons c cs ih =>
    have caseB : trailingLowerLen (c :: cs) = trailingLowerLen cs →
        (c :: cs).take ((c :: cs).length - trailingLowerLen (c :: cs))
          = ((c :: cs).reverse.dropWhile isLowerAZ).reverse := by
      intro ht
      rw [ht]
      have hle := trailingLowerLen_le cs
      have hsub : (c :: cs).length - trailingLowerLen cs
          = (cs.length - trailingLowerLen cs) + 1 := by
        simp only [List.length_cons]; omega
      rw [hsub, List.take_succ_cons, ih, List.reverse_cons, List.dropWhile_append]
      by_cases hnil : cs.reverse.dropWhile isLowerAZ = []
      · have hall : ∀ x ∈ cs, isLowerAZ x = true := by
          intro x hx
          exact List.dropWhile_eq_nil_iff.1 hnil x (List.mem_reverse.2 hx)
        have hfull : trailingLowerLen cs = cs.length := (trailingLowerLen_eq_iff cs).2 hall
        have hc : isLowerAZ c = false := by
          rcases Bool.eq_false_or_eq_true (isLowerAZ c) with h | h
          · rw [trailingLowerLen_cons, if_pos ⟨hfull, h⟩] at ht
            omega
          · exact h
        rw [hnil]
        simp [List.dropWhile_cons, hc]
      · rw [if_neg (by simpa [List.isEmpty_iff] using hnil)]
        simp
    by_cases h : trailingLowerLen cs = cs.length ∧ isLowerAZ c = true
    · rw [trailingLowerLen_cons, if_pos h]
      have hnil : cs.reverse.dropWhile isLowerAZ = [] :=
        List.dropWhile_eq_nil_iff.2 (fun x hx => (trailingLowerLen_eq_iff cs).1 h.1 x (List.mem_reverse.1 hx))
      simp only [List.length_cons, Nat.sub_self, List.take_zero]
      rw [List.reverse_cons, List.dropWhile_append, hnil]
      simp [List.dropWhile_cons, h.2]
    · exact caseB (by rw [trailingLowerLen_cons, if_neg h])

theorem dropWhile_contains_nil : ∀ m : List Char,
    m.dropWhile (fun c => ([] : List Char).contains c) = m := by
  intro m
  cases m with
  | nil => rfl
  | cons c cs => simp [List.dropWhile_cons]

/-- Claim C9: the two independent base-id extractors agree.
`model.Leg.EntryGroup` (index loop then `TrimRight` with an empty cutset)
equals `id.EntryGroup` (index loop) on every entry id. -/
theorem leg_entryGroup_eq_id_entryGroup (l : Leg) :
    l.entryGroup = entryGroup l.entryID := by
  unfold Leg.entryGroup entryGroup trimRightIn
  by_cases h : l.entryID.data.length = 0
  · simp [h]
  · rw [if_neg h, if_neg h]
    show String.mk _ = String.mk _
    congr 1
    show ((l.entryID.data.take _).reverse.dropWhile _).reverse = _
    rw [dropWhile_contains_nil, List.reverse_reverse]
    exact take_eq_dropWhile_rev l.entryID.data

/-! ### Leg-id round trip (C6) -/
theorem padNat_all_digits (w n : ℕ) : ∀ c ∈ padNat w n, isDigitCh c = true := by
  intro c hc
  unfold padNat at hc
  rcases List.mem_append.1 hc with hc | hc
  · have := List.eq_of_mem_replicate hc
    subst this
    decide
  · exact natRepr_all_digits n c hc

theorem padNat_ne_nil (w n : ℕ) : padNat w n ≠ [] := by
  unfold padNat
  intro h
  exact natRepr_ne_nil n (List.append_eq_nil.1 h).2

/-- When a reversed all-digit block heads the list, nothing is stripped. -/
theorem dropWhile_digits_rev (P rest : List Char) (hne : P ≠ [])
    (hdig : ∀ c ∈ P, isDigitCh c = true) :
    (P.reverse ++ rest).dropWhile isLowerAZ = P.reverse ++ rest := by
  cases hrev : P.reverse with
  | nil => exact absurd (by simpa using hrev) hne
  | cons a as =>
    have ha : a ∈ P := by
      have : a ∈ P.reverse := by rw [hrev]; simp
      exact List.mem_reverse.1 this
    have : isLowerAZ a = false := digit_not_lower a (hdig a ha)
    simp [List.dropWhile_cons, this]

theorem lower_char_ofNat : ∀ j : ℕ, j ≤ 25 → isLowerAZ (Char.ofNat (97 + j)) = true := by
  decide

/-- Claim C6: for valid year, month, sequence and leg index (`0 ≤ k ≤ 25`,
the lowercase letters), stripping the leg suffix recovers the base entry id:
`EntryGroup(FormatLegID(FormatEntryID(y,m,n), k)) = FormatEntryID(y,m,n)`. -/
theorem entryGroup_formatLegID_formatEntryID (y m n k : ℤ)
    (hk0 : 0 ≤ k) (hk : k ≤ 25) :
    entryGroup (formatLegID (formatEntryID y m n) k) = formatEntryID y m n := by
  have hch : isLowerAZ (Char.ofNat (97 + k).toNat) = true := by
    have h1 : (97 + k).toNat = 97 + k.toNat := by omega
    rw [h1]
    exact lower_char_ofNat k.toNat (by omega)
  unfold formatLegID entryGroup
  rw [if_neg (by simp)]
  show String.mk _ = _
  have hdata : (formatEntryID y m n).data
      = (padInt 4 y ++ '-' :: padInt 2 m ++ ['-']) ++ padInt 3 n := by
    show padInt 4 y ++ '-' :: padInt 2 m ++ '-' :: padInt 3 n = _
    simp
  congr 1
  rw [List.reverse_append, List.reverse_cons, List.reverse_nil, List.nil_append,
    List.singleton_append, List.dropWhile_cons]
  rw [hch]
  simp only [if_true]
  rw [hdata]
  unfold padInt
  by_cases hn : n < 0
  · rw [if_pos hn, List.reverse_append, List.reverse_cons]
    rw [List.append_assoc]
    rw [dropWhile_digits_rev _ _ (padNat_ne_nil 2 n.natAbs) (padNat_all_digits 2 n.natAbs)]
    simp
  · rw [if_neg hn, List.reverse_append]
    rw [dropWhile_digits_rev _ _ (padNat_ne_nil 3 n.natAbs) (padNat_all_digits 3 n.natAbs)]
    simp

/-- Witness for C6 at `y = 2025, m = 1, n = 1, k = 0`. -/
theorem entryGroup_formatLegID_formatEntryID_witness :
    (0 : ℤ) ≤ 0 ∧ (0 : ℤ) ≤ 25 ∧
      entryGroup (formatLegID (formatEntryID 2025 1 1) 0) = formatEntryID 2025 1 1 :=
  ⟨by decide, by decide,
    entryGroup_formatLegID_formatEntryID 2025 1 1 0 (by decide) (by decide)⟩

/-! ### Decomposition of the validator folds -/
theorem foldl_append_of_step {α β : Type} (step : List β → α → List β) (f : α → List β)
    (hstep : ∀ acc x, step acc x = acc ++ f x) :
    ∀ (l : List α) (init : List β), l.foldl step init = init ++ l.flatMap f := by
  intro l
  induction l with
  | nil => intro init; simp
  | cons x xs ih =>
    intro init
    simp only [List.foldl_cons, List.flatMap_cons, hstep]
    rw [ih]
    simp [List.append_assoc]

theorem boolIte_append {β : Type} (b : Bool) (a x : List β) :
    (if b then a ++ x else a) = a ++ (if b then x else []) := by
  cases b <;> simp

theorem boolIte_append_neg {β : Type} (b : Bool) (a x : List β) :
    (if b then a else a ++ x) = a ++ (if b then [] else x) := by
  cases b <;> simp

theorem inv5_fold_eq (legs : List Leg) :
    ∀ (errs0 : List ValidationError) (seen0 : List ℤ),
    legs.foldl (fun (p : List ValidationError × List ℤ) leg =>
      match parseEntryID leg.entryID with
      | .error e => (p.1 ++ [⟨5, leg.entryID, "invalid entry ID: " ++ e⟩], p.2)
      | .ok r => (p.1, if p.2.contains r.2.2 then p.2 else p.2 ++ [r.2.2])) (errs0, seen0)
    = (errs0 ++ legs.flatMap parseIssue,
       legs.foldl (fun s leg =>
         match parseEntryID leg.entryID with
         | .error _ => s
         | .ok r => if s.contains r.2.2 then s else s ++ [r.2.2]) seen0) := by
  induction legs with
  | nil => intro errs0 seen0; simp
  | cons leg legs ih =>
    intro errs0 seen0
    simp only [List.foldl_cons, List.flatMap_cons]
    cases hp : parseEntryID leg.entryID with
    | error e =>
      simp only [hp]
      rw [ih]
      simp [parseIssue, hp, List.append_assoc]
    | ok r =>
      simp only [hp]
      rw [ih]
      simp [parseIssue, hp]

/-- The validator output is the group pass, the per-leg pass, and the
invariant-5 sweep, concatenated in that order.  (Shared helper.) -/
theorem validateLegs_decomp (legs : List Leg) (chk : ℤ → Bool) (year month : ℤ) :
    validateLegs legs chk year month
      = (firstSeenGroups legs).flatMap (groupIssue legs)
        ++ legs.flatMap (perLegIssues chk year month)
        ++ (legs.flatMap parseIssue ++ missingSeqIssues legs) := by
  unfold validateLegs
  dsimp only
  rw [inv5_fold_eq]
  rw [foldl_append_of_step _ (groupIssue legs)
    (fun acc g => by
      unfold groupIssue
      rw [boolIte_append_neg])]
  rw [foldl_append_of_step _ (perLegIssues chk year month)
    (fun acc leg => by
      unfold perLegIssues
      rw [boolIte_append, boolIte_append, boolIte_append, boolIte_append, boolIte_append]
      simp only [List.append_assoc])]
  have hseq : (List.foldl (fun s leg =>
      match parseEntryID leg.entryID with
      | .error _ => s
      | .ok r => if s.contains r.2.2 then s else s ++ [r.2.2]) [] legs) = seqSet legs := rfl
  dsimp only
  rw [hseq]
  unfold missingSeqIssues
  dsimp only
  by_cases hlen : 0 < (seqSet legs).length
  · rw [if_pos hlen, if_pos hlen]
    rw [foldl_append_of_step _
      (fun i : ℕ =>
        if !((seqSet legs).contains ((i : ℤ) + 1)) then
          [⟨5, "seq " ++ intStr ((i : ℤ) + 1), "missing sequence " ++ intStr ((i : ℤ) + 1)
             ++ " in 1.." ++ intStr (seqSet legs).length⟩]
        else [])
      (fun acc i => by rw [boolIte_append])]
    simp [firstSeenGroups, List.append_assoc]
  · rw [if_neg hlen, if_neg hlen]
    simp [firstSeenGroups, List.append_assoc]

/-! ### Invariant tags of each segment -/
theorem mem_boolIte_single {β : Type} {b : Bool} {x e : β}
    (h : e ∈ (if b then [x] else [])) : e = x := by
  cases b
  · simp at h
  · simpa using h

theorem groupIssue_invariant (legs : List Leg) (g : String) :
    ∀ e ∈ groupIssue legs g, e.invariant = 1 := by
  intro e he
  unfold groupIssue at he
  dsimp only at he
  split at he
  · simp at he
  · simp only [List.mem_singleton] at he
    subst he
    rfl

theorem perLegIssues_invariant (chk : ℤ → Bool) (year month : ℤ) (leg : Leg) :
    ∀ e ∈ perLegIssues chk year month leg,
      e.invariant = 2 ∨ e.invariant = 3 ∨ e.invariant = 4 ∨ e.invariant = 6 := by
  intro e he
  unfold perLegIssues at he
  simp only [List.mem_append] at he
  rcases he with he | he | he | he | he
  · left; rw [mem_boolIte_single he]
  · right; left; rw [mem_boolIte_single he]
  · right; right; left; rw [mem_boolIte_single he]
  · right; right; right; rw [mem_boolIte_single he]
  · right; right; right; rw [mem_boolIte_single he]

theorem parseIssue_invariant (leg : Leg) : ∀ e ∈ parseIssue leg, e.invariant = 5 := by
  intro e he
  unfold parseIssue at he
  cases hp : parseEntryID leg.entryID with
  | error msg => rw [hp] at he; simp only [List.mem_singleton] at he; subst he; rfl
  | ok r => rw [hp] at he; simp at he

theorem missingSeqIssues_invariant (legs : List Leg) :
    ∀ e ∈ missingSeqIssues legs, e.invariant = 5 := by
  intro e he
  unfold missingSeqIssues at he
  dsimp only at he
  split at he
  · simp only [List.mem_flatMap] at he
    obtain ⟨i, _, he⟩ := he
    rw [mem_boolIte_single he]
  · simp at he

/-- Claim C4: `ValidateLegs` never stops at the first violation; its output
is exactly the invariant-1 group-balance issues in first-seen group order,
then the per-leg invariant-2/3/4/6 issues in input order, then the
invariant-5 sweep, and each segment carries only the stated invariant
tags. -/
theorem validateLegs_returns_all_in_order (legs : List Leg) (chk : ℤ → Bool)
    (year month : ℤ) :
    validateLegs legs chk year month
      = (firstSeenGroups legs).flatMap (groupIssue legs)
        ++ legs.flatMap (perLegIssues chk year month)
        ++ (legs.flatMap parseIssue ++ missingSeqIssues legs)
    ∧ (∀ e ∈ (firstSeenGroups legs).flatMap (groupIssue legs), e.invariant = 1)
    ∧ (∀ e ∈ legs.flatMap (perLegIssues chk year month),
        e.invariant = 2 ∨ e.invariant = 3 ∨ e.invariant = 4 ∨ e.invariant = 6)
    ∧ (∀ e ∈ legs.flatMap parseIssue ++ missingSeqIssues legs, e.invariant = 5) := by
  refine ⟨validateLegs_decomp legs chk year month, ?_, ?_, ?_⟩
  · intro e he
    simp only [List.mem_flatMap] at he
    obtain ⟨g, _, he⟩ := he
    exact groupIssue_invariant legs g e he
  · intro e he
    simp only [List.mem_flatMap] at he
    obtain ⟨leg, _, he⟩ := he
    exact perLegIssues_invariant chk year month leg e he
  · intro e he
    rcases List.mem_append.1 he with he | he
    · simp only [List.mem_flatMap] at he
      obtain ⟨leg, _, he⟩ := he
      exact parseIssue_invariant leg e he
    · exact missingSeqIssues_invariant legs e he

/-! ### Invariant 2 (C2) -/
theorem flatMap_boolIte_single {α β : Type} (q : α → Bool) (f : α → β) (l : List α) :
    l.flatMap (fun x => if q x then [f x] else []) = (l.filter q).map f := by
  induction l with
  | nil => simp
  | cons x xs ih =>
    simp only [List.flatMap_cons, List.filter_cons]
    by_cases h : q x
    · simp [h, ih]
    · simp [h, ih]

theorem filter_eq_nil_of_all {β : Type} (p : β → Bool) (l : List β)
    (h : ∀ e ∈ l, p e = false) : l.filter p = [] :=
  List.filter_eq_nil_iff.2 (by simpa using h)

theorem filter_group_segment (legs : List Leg) (p : ValidationError → Bool)
    (hp : ∀ e : ValidationError, e.invariant = 1 → p e = false) :
    ((firstSeenGroups legs).flatMap (groupIssue legs)).filter p = [] := by
  apply filter_eq_nil_of_all
  intro e he
  simp only [List.mem_flatMap] at he
  obtain ⟨g, _, hg⟩ := he
  exact hp e (groupIssue_invariant legs g e hg)

theorem filter_perLeg_segment (legs : List Leg) (chk : ℤ → Bool) (year month : ℤ)
    (p : ValidationError → Bool)
    (hp : ∀ e : ValidationError,
      e.invariant = 2 ∨ e.invariant = 3 ∨ e.invariant = 4 ∨ e.invariant = 6 → p e = false) :
    (legs.flatMap (perLegIssues chk year month)).filter p = [] := by
  apply filter_eq_nil_of_all
  intro e he
  simp only [List.mem_flatMap] at he
  obtain ⟨leg, _, hg⟩ := he
  exact hp e (perLegIssues_invariant chk year month leg e hg)

theorem filter_parse_segment (legs : List Leg) (p : ValidationError → Bool)
    (hp : ∀ e : ValidationError, e.invariant = 5 → p e = false) :
    (legs.flatMap parseIssue).filter p = [] := by
  apply filter_eq_nil_of_all
  intro e he
  simp only [List.mem_flatMap] at he
  obtain ⟨leg, _, hg⟩ := he
  exact hp e (parseIssue_invariant leg e hg)

theorem filter_missing_segment (legs : List Leg) (p : ValidationError → Bool)
    (hp : ∀ e : ValidationError, e.invariant = 5 → p e = false) :
    (missingSeqIssues legs).filter p = [] := by
  apply filter_eq_nil_of_all
  intro e he
  exact hp e (missingSeqIssues_invariant legs e he)

theorem perLegIssues_filter_inv2 (chk : ℤ → Bool) (year month : ℤ) (leg : Leg) :
    (perLegIssues chk year month leg).filter (fun e => e.invariant == 2)
      = if (!leg.debit.isZero) == (!leg.credit.isZero) then
          [⟨2, leg.entryID, "leg must have exactly one of debit or credit"⟩]
        else [] := by
  unfold perLegIssues
  simp only [List.filter_append]
  split_ifs <;> simp_all [List.filter]

/-- Claim C2 (amended): `ValidateLegs` emits an invariant-2 issue for a leg
precisely when it is NOT the case that exactly one of its debit and credit is
non-zero (never both non-zero, never both zero) — the code tests
non-zero-ness, not strict positivity.  The invariant-2 issues are exactly one
per such leg, in input order. -/
theorem inv2_issues_characterization (legs : List Leg) (chk : ℤ → Bool)
    (year month : ℤ) :
    (validateLegs legs chk year month).filter (fun e => e.invariant == 2)
      = (legs.filter (fun leg => (!leg.debit.isZero) == (!leg.credit.isZero))).map
          (fun leg => ⟨2, leg.entryID, "leg must have exactly one of debit or credit"⟩) := by
  rw [validateLegs_decomp]
  simp only [List.filter_append]
  rw [filter_group_segment legs _ (fun e h1 => by rw [h1]; decide)]
  rw [filter_parse_segment legs _ (fun e h5 => by rw [h5]; decide)]
  rw [filter_missing_segment legs _ (fun e h5 => by rw [h5]; decide)]
  rw [List.filter_flatMap]
  simp only [perLegIssues_filter_inv2]
  rw [flatMap_boolIte_single
    (fun leg => (!leg.debit.isZero) == (!leg.credit.isZero))
    (fun leg =>
      (⟨2, leg.entryID, "leg must have exactly one of debit or credit"⟩ : ValidationError))
    legs]
  simp

/-- Claim C2 as stated is false on the code: for `legNegDebit`, exactly one
of `debit > 0` / `credit > 0` fails to hold (neither is positive), so the
claim demands an invariant-2 issue, but `ValidateLegs` emits none. -/
theorem inv2_positivity_counterexample :
    ¬ ((0 < legNegDebit.debit.sign ∧ ¬ 0 < legNegDebit.credit.sign)
        ∨ (0 < legNegDebit.credit.sign ∧ ¬ 0 < legNegDebit.debit.sign))
    ∧ (validateLegs [legNegDebit] (fun _ => true) 2025 1).filter
        (fun e => e.invariant == 2) = [] := by
  constructor
  · decide
  · decide

theorem parseIssue_eq_ite (leg : Leg) :
    parseIssue leg
      = if !(parsesOK leg) then
          [(⟨5, leg.entryID, "invalid entry ID: " ++ parseFailText leg⟩ : ValidationError)]
        else [] := by
  unfold parseIssue parsesOK parseFailText
  cases hp : parseEntryID leg.entryID <;> simp [hp]

theorem flatMap_parseIssue_eq (legs : List Leg) :
    legs.flatMap parseIssue
      = (legs.filter (fun l => !(parsesOK l))).map
          (fun l => (⟨5, l.entryID, "invalid entry ID: " ++ parseFailText l⟩ : ValidationError)) := by
  have hfun : parseIssue = fun l =>
      if !(parsesOK l) then
        [(⟨5, l.entryID, "invalid entry ID: " ++ parseFailText l⟩ : ValidationError)]
      else [] := funext parseIssue_eq_ite
  rw [hfun, flatMap_boolIte_single]

theorem missingSeqIssues_eq (legs : List Leg) :
    missingSeqIssues legs
      = if seqSet legs = [] then []
        else (((List.range (seqSet legs).length).map (fun (i : ℕ) => ((i : ℤ) + 1))).filter
            (fun s => !((seqSet legs).contains s))).map
            (fun s => (⟨5, "seq " ++ intStr s,
              "missing sequence " ++ intStr s ++ " in 1.."
                ++ intStr ((seqSet legs).length : ℤ)⟩ : ValidationError)) := by
  unfold missingSeqIssues
  dsimp only
  by_cases h : seqSet legs = []
  · simp [h]
  · rw [if_pos (by simp [List.length_pos, h]), if_neg h]
    rw [← flatMap_boolIte_single (fun s : ℤ => !((seqSet legs).contains s))
      (fun s : ℤ => (⟨5, "seq " ++ intStr s,
        "missing sequence " ++ intStr s ++ " in 1.."
          ++ intStr ((seqSet legs).length : ℤ)⟩ : ValidationError))]
    rw [List.flatMap_map]

theorem seqSet_fold_nodup (legs : List Leg) :
    ∀ acc : List ℤ, acc.Nodup →
      (legs.foldl (fun s leg =>
        match parseEntryID leg.entryID with
        | .error _ => s
        | .ok r => if s.contains r.2.2 then s else s ++ [r.2.2]) acc).Nodup := by
  induction legs with
  | nil => intro acc h; simpa
  | cons leg legs ih =>
    intro acc h
    simp only [List.foldl_cons]
    cases hp : parseEntryID leg.entryID with
    | error e => simp only [hp]; exact ih acc h
    | ok r =>
      simp only [hp]
      by_cases hc : acc.contains r.2.2
      · simp only [hc, if_true]
        exact ih acc h
      · simp only [hc, if_false, Bool.false_eq_true]
        apply ih
        refine List.Nodup.append h (List.nodup_singleton _) ?_
        intro a ha hb
        simp only [List.mem_singleton] at hb
        subst hb
        exact hc (List.elem_iff.2 ha)

theorem seqSet_nodup (legs : List Leg) : (seqSet legs).Nodup :=
  seqSet_fold_nodup legs [] (by simp)

/-- All of `1..n` being members of a duplicate-free integer list of length
`n` forces the list to be exactly that interval (as a set). -/
theorem nodup_contains_iff_Icc (S : List ℤ) (hnd : S.Nodup) :
    ((∀ i : ℕ, i < S.length → S.contains ((i : ℤ) + 1) = true)
      ↔ S.toFinset = Finset.Icc (1 : ℤ) (S.length : ℤ)) := by
  constructor
  · intro h
    have hsub : Finset.Icc (1 : ℤ) (S.length : ℤ) ⊆ S.toFinset := by
      intro s hs
      simp only [Finset.mem_Icc] at hs
      have hi : ((s - 1).toNat : ℤ) + 1 = s := by omega
      have hlt : (s - 1).toNat < S.length := by omega
      have := h (s - 1).toNat hlt
      rw [hi] at this
      simpa [List.mem_toFinset] using List.elem_iff.1 this
    have hcard : S.toFinset.card ≤ (Finset.Icc (1 : ℤ) (S.length : ℤ)).card := by
      rw [List.toFinset_card_of_nodup hnd, Int.card_Icc]
      omega
    exact (Finset.eq_of_subset_of_card_le hsub hcard).symm
  · intro h i hi
    have : ((i : ℤ) + 1) ∈ Finset.Icc (1 : ℤ) (S.length : ℤ) := by
      simp only [Finset.mem_Icc]
      omega
    rw [← h, List.mem_toFinset] at this
    exact List.elem_iff.2 this

/-- Claim C3: the invariant-5 issues of `ValidateLegs` are exactly one per
leg whose entry id does not parse (in input order), followed, when the set
`S` of parsed base sequence numbers is non-empty, by one per number of
`1..|S|` missing from `S` (in increasing order); in particular no
invariant-5 issue is emitted precisely when every entry id parses and `S` is
empty or equals the contiguous interval `1..|S|`. -/
theorem inv5_issues_characterization (legs : List Leg) (chk : ℤ → Bool)
    (year month : ℤ) :
    ((validateLegs legs chk year month).filter (fun e => e.invariant == 5)
      = (legs.filter (fun l => !(parsesOK l))).map
          (fun l => (⟨5, l.entryID, "invalid entry ID: " ++ parseFailText l⟩ : ValidationError))
        ++ (if seqSet legs = [] then []
            else (((List.range (seqSet legs).length).map (fun (i : ℕ) => ((i : ℤ) + 1))).filter
                (fun s => !((seqSet legs).contains s))).map
                (fun s => (⟨5, "seq " ++ intStr s,
                  "missing sequence " ++ intStr s ++ " in 1.."
                    ++ intStr ((seqSet legs).length : ℤ)⟩ : ValidationError))))
    ∧ ((validateLegs legs chk year month).filter (fun e => e.invariant == 5) = []
        ↔ (∀ l ∈ legs, parsesOK l = true)
          ∧ (seqSet legs = []
             ∨ (seqSet legs).toFinset = Finset.Icc (1 : ℤ) ((seqSet legs).length : ℤ))) := by
  have hmain : (validateLegs legs chk year month).filter (fun e => e.invariant == 5)
      = legs.flatMap parseIssue ++ missingSeqIssues legs := by
    rw [validateLegs_decomp]
    simp only [List.filter_append]
    rw [filter_group_segment legs _ (fun e h1 => by rw [h1]; decide)]
    rw [filter_perLeg_segment legs chk year month _ (fun e h => by
      rcases h with h | h | h | h <;> rw [h] <;> decide)]
    rw [List.filter_eq_self.2 (fun e he => by
      simp only [List.mem_flatMap] at he
      obtain ⟨leg, _, hg⟩ := he
      rw [parseIssue_invariant leg e hg]; decide)]
    rw [List.filter_eq_self.2 (fun e he => by
      rw [missingSeqIssues_invariant legs e he]; decide)]
    simp
  constructor
  · rw [hmain, flatMap_parseIssue_eq, missingSeqIssues_eq]
  · rw [hmain, flatMap_parseIssue_eq, missingSeqIssues_eq, List.append_eq_nil]
    constructor
    · rintro ⟨hp, hm⟩
      constructor
      · intro l hl
        have hfil : legs.filter (fun l => !(parsesOK l)) = [] := by
          simpa using hp
        have := List.filter_eq_nil_iff.1 hfil l hl
        simpa using this
      · by_cases hS : seqSet legs = []
        · exact Or.inl hS
        · right
          rw [if_neg hS] at hm
          have hfil : ((List.range (seqSet legs).length).map
              (fun (i : ℕ) => ((i : ℤ) + 1))).filter
              (fun s => !((seqSet legs).contains s)) = [] := by simpa using hm
          have hcontains : ∀ i : ℕ, i < (seqSet legs).length →
              (seqSet legs).contains ((i : ℤ) + 1) = true := by
            intro i hi
            have := List.filter_eq_nil_iff.1 hfil ((i : ℤ) + 1) (by
              simp only [List.mem_map, List.mem_range]
              exact ⟨i, hi, rfl⟩)
            simpa using this
          exact (nodup_contains_iff_Icc _ (seqSet_nodup legs)).1 hcontains
    · rintro ⟨hp, hm⟩
      constructor
      · have hfil : legs.filter (fun l => !(parsesOK l)) = [] := by
          apply filter_eq_nil_of_all
          intro l hl
          simp [hp l hl]
        rw [hfil, List.map_nil]
      · by_cases hS : seqSet legs = []
        · simp [hS]
        · rw [if_neg hS]
          rcases hm with hS2 | hIcc
          · exact absurd hS2 hS
          · have hcont := (nodup_contains_iff_Icc _ (seqSet_nodup legs)).2 hIcc
            have hfil : ((List.range (seqSet legs).length).map
                (fun (i : ℕ) => ((i : ℤ) + 1))).filter
                (fun s => !((seqSet legs).contains s)) = [] := by
              apply filter_eq_nil_of_all
              intro s hs
              simp only [List.mem_map, List.mem_range] at hs
              obtain ⟨i, hi, rfl⟩ := hs
              rw [hcont i hi]
              rfl
            rw [hfil, List.map_nil]

/-- Characterization of `addDouble` as a single validation-gated
conditional; shared by the service-level results below. -/
theorem addDouble_eq (accountExists : ℤ → Bool)
    (params : AddDoubleParams) (file : Option (List Leg)) :
    addDouble accountExists params file
      = (let existing := readMonth file
         let entryID := formatEntryID params.date.year params.date.month
           (nextEntrySeq existing)
         let verrs := validateLegs (existing ++ synthLegs params entryID)
           accountExists params.date.year params.date.month
         if verrs = [] then
           (.ok entryID, some (existing ++ synthLegs params entryID))
         else
           (.error ("validation failed: "
             ++ String.intercalate "; " (verrs.map ValidationError.errString)), file)) := by
  unfold addDouble
  dsimp only
  by_cases h : validateLegs
      (readMonth file ++ synthLegs params
        (formatEntryID params.date.year params.date.month (nextEntrySeq (readMonth file))))
      accountExists params.date.year params.date.month = []
  · rw [if_neg (by simp [h]), if_pos h]
  · rw [if_pos (by simpa [List.length_pos] using h), if_neg h]

/-- Claim C1: `AddDouble` is all-or-nothing.  When validating the persisted
legs together with the two synthesized legs yields at least one issue, it
returns a single error whose message lists every issue (joined with `"; "`)
and the month file is unchanged; otherwise it appends exactly the two new
legs and returns the base entry id. -/
theorem addDouble_all_or_nothing (accountExists : ℤ → Bool)
    (params : AddDoubleParams) (file : Option (List Leg)) :
    addDouble accountExists params file
      = (let existing := readMonth file
         let entryID := formatEntryID params.date.year params.date.month
           (nextEntrySeq existing)
         let verrs := validateLegs (existing ++ synthLegs params entryID)
           accountExists params.date.year params.date.month
         if verrs = [] then
           (.ok entryID, some (existing ++ synthLegs params entryID))
         else
           (.error ("validation failed: "
             ++ String.intercalate "; " (verrs.map ValidationError.errString)), file)) :=
  addDouble_eq accountExists params file

/-- Claim C5 (amended): `NextEntrySeq` returns one greater than the maximum
of `0` and the parseable base sequence numbers of the month's legs (so in
particular `1` when the month has no legs, no parseable entry id, or only
non-positive parseable sequences). -/
theorem nextEntrySeq_eq_max (legs : List Leg) :
    nextEntrySeq legs
      = (legs.filterMap
          (fun l => (parseEntryID l.entryID).toOption.map (fun r => r.2.2))).foldl
            max 0 + 1 := by
  unfold nextEntrySeq
  congr 1
  suffices h : ∀ m : ℤ, legs.foldl (fun maxSeq leg =>
      match parseEntryID leg.entryID with
      | .error _ => maxSeq
      | .ok r => if r.2.2 > maxSeq then r.2.2 else maxSeq) m
    = (legs.filterMap
        (fun l => (parseEntryID l.entryID).toOption.map (fun r => r.2.2))).foldl max m by
    exact h 0
  induction legs with
  | nil => intro m; simp
  | cons leg legs ih =>
    intro m
    simp only [List.foldl_cons, List.filterMap_cons]
    cases hp : parseEntryID leg.entryID with
    | error e => simp only [hp, Except.toOption, Option.map_none]; exact ih m
    | ok r =>
      simp only [hp, Except.toOption, Option.map_some, List.foldl_cons]
      have hmax : (if r.2.2 > m then r.2.2 else m) = max m r.2.2 := by
        rcases le_or_lt r.2.2 m with h | h
        · rw [if_neg (not_lt.2 h), max_eq_left h]
        · rw [if_pos h, max_eq_right h.le]
      rw [hmax]
      exact ih (max m r.2.2)

/-- Claim C5 as stated is false on the code: for a month whose only leg has
the parseable entry id `2025-01--5` (sequence `-5`), one greater than the
maximum parseable sequence would be `-4`, but `NextEntrySeq` returns `1`
because the Go running maximum starts at zero. -/
theorem nextEntrySeq_claim_counterexample :
    parseEntryID legNegSeq.entryID = .ok (2025, 1, -5)
    ∧ nextEntrySeq [legNegSeq] = 1
    ∧ nextEntrySeq [legNegSeq] ≠ (-5) + 1 := by
  refine ⟨by rfl, by decide, by decide⟩

theorem Dec.rescale_le (d : Dec) (e : ℤ) (h : e ≤ d.exp) :
    (d.rescale e).val = d.val * 10 ^ (d.exp - e).toNat ∧ (d.rescale e).exp = e := by
  unfold Dec.rescale
  rcases eq_or_lt_of_le h with heq | hlt
  · rw [if_pos heq.symm]
    refine ⟨?_, heq.symm⟩
    rw [← heq]
    simp
  · rw [if_neg (by omega), if_pos hlt]
    exact ⟨rfl, rfl⟩

theorem Dec.eqb_iff (a b : Dec) :
    (a.eqb b = true)
      ↔ a.val * 10 ^ (a.exp - min a.exp b.exp).toNat
          = b.val * 10 ^ (b.exp - min a.exp b.exp).toNat := by
  unfold Dec.eqb
  dsimp only
  rw [(Dec.rescale_le a _ (min_le_left _ _)).1, (Dec.rescale_le b _ (min_le_right _ _)).1]
  simp [beq_iff_eq]

theorem Dec.eqb_refl (a : Dec) : a.eqb a = true := by
  rw [Dec.eqb_iff]

theorem Dec.twoPlaces_iff (d : Dec) :
    d.twoPlaces = true ↔ (0 ≤ d.exp ∨ (10 : ℤ) ^ (-d.exp).toNat ∣ 100 * d.val) := by
  unfold Dec.twoPlaces Dec.floor
  have hmul : d.mul decHundred = ⟨d.val * 100, d.exp⟩ := by
    unfold Dec.mul decHundred Dec.fromInt
    simp
  rw [hmul]
  by_cases h : (0 : ℤ) ≤ d.exp
  · rw [if_pos h]
    simp [Dec.eqb_refl, h]
  · rw [if_neg h]
    rw [Int.fdiv_eq_ediv _ (by positivity)]
    rw [Dec.eqb_iff]
    dsimp only
    have hmin : min d.exp (0 : ℤ) = d.exp := by omega
    rw [hmin]
    have hL : (d.exp - d.exp).toNat = 0 := by omega
    have hR : ((0 : ℤ) - d.exp).toNat = (-d.exp).toNat := by omega
    rw [hL, hR, pow_zero, mul_one]
    constructor
    · intro heq
      right
      refine ⟨(d.val * 100) / 10 ^ (-d.exp).toNat, ?_⟩
      linear_combination heq
    · intro hor
      rcases hor with h0 | hdvd
      · exact absurd h0 h
      · have hd : (10 : ℤ) ^ (-d.exp).toNat ∣ d.val * 100 := by
          rwa [mul_comm] at hdvd
        rw [Int.ediv_mul_cancel hd]

theorem tdiv_half_away (b : ℤ) :
    (if 10 * b < 0 then 10 * b - 5 else 10 * b + 5).tdiv 10 = b := by
  by_cases hb : 10 * b < 0
  · rw [if_pos hb]
    have hneg : 10 * b - 5 = -(10 * (-b) + 5) := by ring
    rw [hneg, Int.neg_tdiv, Int.tdiv_eq_ediv (by omega) (by omega)]
    omega
  · rw [if_neg hb]
    rw [Int.tdiv_eq_ediv (by omega) (by omega)]
    omega

theorem Dec.round2_exp (d : Dec) : (d.round2).exp = -2 := by
  unfold Dec.round2
  by_cases h : d.exp = -2
  · rw [if_pos h]; exact h
  · rw [if_neg h]

/-- Rounding to two places does not change a value that already has at most
two decimal places. -/
theorem Dec.round2_eqb_self (d : Dec) (h : d.twoPlaces = true) :
    (d.round2).eqb d = true := by
  unfold Dec.round2
  by_cases h2 : d.exp = -2
  · rw [if_pos h2]; exact Dec.eqb_refl d
  · rw [if_neg h2]
    dsimp only
    rcases lt_trichotomy d.exp (-3) with hC | hB | hA
    · -- d.exp ≤ -4: the rescale truncates, exactly, by divisibility
      have hk2 : (2 : ℕ) ≤ (-d.exp - 2).toNat := by omega
      set k : ℕ := (-d.exp - 2).toNat with hkdef
      have hdvd : (10 : ℤ) ^ (-d.exp).toNat ∣ 100 * d.val := by
        rcases (Dec.twoPlaces_iff d).1 h with h0 | hd
        · omega
        · exact hd
      have hexp : (-d.exp).toNat = k + 2 := by omega
      rw [hexp] at hdvd
      obtain ⟨t, ht⟩ := hdvd
      have hval : d.val = 10 ^ k * t := by
        have h100 : (100 : ℤ) * d.val = 100 * (10 ^ k * t) := by
          rw [ht, pow_add]
          ring
        have := mul_left_cancel₀ (by norm_num : (100 : ℤ) ≠ 0) h100
        exact this
      have hres : (d.rescale (-3)).val = 10 * t ∧ (d.rescale (-3)).exp = -3 := by
        unfold Dec.rescale
        rw [if_neg (by omega), if_neg (by omega)]
        refine ⟨?_, rfl⟩
        dsimp only
        have hsub : ((-3 : ℤ) - d.exp).toNat = k - 1 := by omega
        rw [hsub, hval]
        have hp : (10 : ℤ) ^ k = 10 ^ (k - 1) * 10 := by
          have hk1 : k = (k - 1) + 1 := by omega
          calc (10 : ℤ) ^ k = 10 ^ ((k - 1) + 1) := by rw [← hk1]
            _ = 10 ^ (k - 1) * 10 := pow_succ 10 (k - 1)
        rw [hp]
        rw [show (10 : ℤ) ^ (k - 1) * 10 * t = 10 ^ (k - 1) * (10 * t) by ring]
        exact Int.mul_tdiv_cancel_left _ (by positivity)
      rw [hres.1]
      rw [show (10 : ℤ) * t = 10 * t by rfl]
      have : (if 10 * t < 0 then 10 * t - 5 else 10 * t + 5).tdiv 10 = t := tdiv_half_away t
      rw [this]
      rw [Dec.eqb_iff]
      dsimp only
      have hmin : min (-2 : ℤ) d.exp = d.exp := by omega
      rw [hmin]
      have hL : ((-2 : ℤ) - d.exp).toNat = k := by omega
      have hR : (d.exp - d.exp).toNat = 0 := by omega
      rw [hL, hR, pow_zero, mul_one, hval]
      ring
    · -- d.exp = -3: the rescale is the identity; divisibility by 10
      have hdvd : (10 : ℤ) ^ (-d.exp).toNat ∣ 100 * d.val := by
        rcases (Dec.twoPlaces_iff d).1 h with h0 | hd
        · omega
        · exact hd
      have hexp : (-d.exp).toNat = 3 := by omega
      rw [hexp] at hdvd
      obtain ⟨t, ht⟩ := hdvd
      have hval : d.val = 10 * t := by
        have : (100 : ℤ) * d.val = 100 * (10 * t) := by
          rw [ht]; ring
        exact mul_left_cancel₀ (by norm_num : (100 : ℤ) ≠ 0) this
      have hres : d.rescale (-3) = d := by
        unfold Dec.rescale
        rw [if_pos hB]
      rw [hres, hval]
      have : (if 10 * t < 0 then 10 * t - 5 else 10 * t + 5).tdiv 10 = t := tdiv_half_away t
      rw [this]
      rw [Dec.eqb_iff]
      dsimp only
      have hmin : min (-2 : ℤ) d.exp = d.exp := by omega
      rw [hmin, hB]
      norm_num
      rw [hval]
      ring
    · -- d.exp ≥ -1: the rescale multiplies exactly
      have hres : (d.rescale (-3)).val = 10 * (d.val * 10 ^ (d.exp + 2).toNat)
          ∧ (d.rescale (-3)).exp = -3 := by
        have hle : (-3 : ℤ) ≤ d.exp := by omega
        obtain ⟨hv, he⟩ := Dec.rescale_le d (-3) hle
        refine ⟨?_, he⟩
        rw [hv]
        have hsub : (d.exp - (-3)).toNat = (d.exp + 2).toNat + 1 := by omega
        rw [hsub, pow_succ]
        ring
      rw [hres.1]
      have : (if 10 * (d.val * 10 ^ (d.exp + 2).toNat) < 0 then
          10 * (d.val * 10 ^ (d.exp + 2).toNat) - 5
        else 10 * (d.val * 10 ^ (d.exp + 2).toNat) + 5).tdiv 10
          = d.val * 10 ^ (d.exp + 2).toNat := tdiv_half_away _
      rw [this]
      rw [Dec.eqb_iff]
      dsimp only
      have hmin : min (-2 : ℤ) d.exp = -2 := by omega
      rw [hmin]
      have hL : ((-2 : ℤ) - (-2)).toNat = 0 := by omega
      have hR : (d.exp - (-2)).toNat = (d.exp + 2).toNat := by omega
      rw [hL, hR, pow_zero, mul_one]

/-! ### Rendering and reparsing decimal strings -/
theorem digitsValCore_zeros : ∀ k : ℕ,
    digitsValCore (List.replicate k '0') 0
      = some ((List.replicate k '0').foldl (fun a c => a * 10 + digitVal c) 0) := by
  intro k
  apply digitsValCore_all_digits
  intro c hc
  rw [List.eq_of_mem_replicate hc]
  decide

theorem foldl_zeros : ∀ k : ℕ,
    (List.replicate k '0').foldl (fun a c => a * 10 + digitVal c) 0 = 0 := by
  intro k
  induction k with
  | zero => rfl
  | succ m ih => simpa [List.replicate_succ, digitVal]

theorem foldl_digits_acc : ∀ (cs : List Char), (∀ c ∈ cs, isDigitCh c = true) →
    ∀ a : ℕ, cs.foldl (fun x c => x * 10 + digitVal c) a
      = a * 10 ^ cs.length + cs.foldl (fun x c => x * 10 + digitVal c) 0 := by
  intro cs
  induction cs with
  | nil => intro _ a; simp
  | cons c t ih =>
    intro h a
    simp only [List.foldl_cons, List.length_cons]
    rw [ih (fun x hx => h x (by simp [hx])) (a * 10 + digitVal c),
      ih (fun x hx => h x (by simp [hx])) (0 * 10 + digitVal c)]
    ring

/-- Leading zeros do not change the parsed value. -/
theorem digitsVal_padNat (w n : ℕ) : digitsVal (padNat w n) = some n := by
  have hne : ¬ (padNat w n).isEmpty = true := by
    simp only [List.isEmpty_iff]
    exact padNat_ne_nil w n
  unfold digitsVal
  rw [if_neg hne]
  rw [digitsValCore_all_digits _ _ (padNat_all_digits w n)]
  unfold padNat
  rw [List.foldl_append, foldl_zeros]
  have hd := digitsVal_natRepr n
  unfold digitsVal at hd
  rw [if_neg (by simp only [List.isEmpty_iff]; exact natRepr_ne_nil n)] at hd
  rw [digitsValCore_all_digits _ _ (natRepr_all_digits n)] at hd
  simpa using hd

theorem splitAll_no_sep (sep : Char) : ∀ (l : List Char), sep ∉ l →
    splitAll sep l = [l] := by
  intro l
  induction l with
  | nil => intro _; rfl
  | cons c t ih =>
    intro h
    have hc : ¬ (c == sep) = true := by
      simp only [beq_iff_eq]
      intro hh
      exact h (by simp [hh])
    unfold splitAll
    rw [if_neg hc]
    rw [ih (fun hm => h (by simp [hm]))]

theorem splitAll_one_sep (sep : Char) : ∀ (x y : List Char), sep ∉ x → sep ∉ y →
    splitAll sep (x ++ sep :: y) = [x, y] := by
  intro x
  induction x with
  | nil =>
    intro y _ hy
    simp only [List.nil_append]
    unfold splitAll
    rw [if_pos (by simp)]
    rw [splitAll_no_sep sep y hy]
  | cons c t ih =>
    intro y hx hy
    have hc : ¬ (c == sep) = true := by
      simp only [beq_iff_eq]
      intro hh
      exact hx (by simp [hh])
    simp only [List.cons_append]
    unfold splitAll
    rw [if_neg hc]
    rw [ih y (fun hm => hx (by simp [hm])) hy]

theorem digit_ne_dash {c : Char} (h : isDigitCh c = true) : c ≠ '-' := by
  intro hh
  subst hh
  simp [isDigitCh] at h

theorem digit_ne_plus {c : Char} (h : isDigitCh c = true) : c ≠ '+' := by
  intro hh
  subst hh
  simp [isDigitCh] at h

theorem digit_ne_dot {c : Char} (h : isDigitCh c = true) : c ≠ '.' := by
  intro hh
  subst hh
  simp [isDigitCh] at h

/-- `big.Int.SetString` on a pure digit run. -/
theorem bigIntFromStr_digits (cs : List Char) (n : ℕ)
    (hne : cs ≠ []) (hdig : ∀ c ∈ cs, isDigitCh c = true)
    (hval : digitsVal cs = some n) :
    bigIntFromStr cs = some ((n : ℕ) : ℤ) := by
  obtain ⟨c, t, rfl⟩ : ∃ c t, cs = c :: t := by
    cases cs with
    | nil => exact absurd rfl hne
    | cons c t => exact ⟨c, t, rfl⟩
  have hc := hdig c (by simp)
  simp only [bigIntFromStr]
  rw [if_neg (digit_ne_dash hc), if_neg (digit_ne_plus hc), hval]

/-- `big.Int.SetString` on a minus sign followed by digits. -/
theorem bigIntFromStr_neg_digits (cs : List Char) (n : ℕ)
    (hval : digitsVal cs = some n) :
    bigIntFromStr ('-' :: cs) = some (-((n : ℕ) : ℤ)) := by
  simp only [bigIntFromStr, if_true]
  rw [hval]

theorem padNat_length_ge (w n : ℕ) : w ≤ (padNat w n).length := by
  unfold padNat
  simp only [List.length_append, List.length_replicate]
  omega

/-- Shape of `StringFixed(2)` output: an integer part (possibly signed, at
least one character, no point) then a point and exactly two digits; the
digits concatenated re-read as the rounded coefficient. -/
theorem stringFixed2_decomp (d : Dec) :
    ∃ X Y, Dec.stringFixed2 d = X ++ '.' :: Y
      ∧ ('.' ∉ X) ∧ ('.' ∉ Y) ∧ Y.length = 2 ∧ X ≠ []
      ∧ (∀ c ∈ Y, isDigitCh c = true)
      ∧ bigIntFromStr (X ++ Y) = some (d.round2).val := by
  unfold Dec.stringFixed2
  dsimp only
  set r := d.round2 with hr
  set digs := padNat 3 r.val.natAbs with hdigs
  have hlen : 3 ≤ digs.length := padNat_length_ge 3 r.val.natAbs
  have hdig : ∀ c ∈ digs, isDigitCh c = true := padNat_all_digits 3 r.val.natAbs
  have hne : digs ≠ [] := padNat_ne_nil 3 r.val.natAbs
  have hval : digitsVal digs = some r.val.natAbs := digitsVal_padNat 3 r.val.natAbs
  refine ⟨(if r.val < 0 then ['-'] else []) ++ digs.take (digs.length - 2),
    digs.drop (digs.length - 2), ?_, ?_, ?_, ?_, ?_, ?_, ?_⟩
  · simp [List.append_assoc]
  · intro hmem
    rcases List.mem_append.1 hmem with hmem | hmem
    · by_cases hneg : r.val < 0
      · rw [if_pos hneg] at hmem
        simp at hmem
      · rw [if_neg hneg] at hmem
        simp at hmem
    · exact digit_ne_dot (hdig _ (List.mem_of_mem_take hmem)) rfl
  · intro hmem
    exact digit_ne_dot (hdig _ (List.mem_of_mem_drop hmem)) rfl
  · rw [List.length_drop]
    omega
  · intro hX
    have htake : digs.take (digs.length - 2) ≠ [] := by
      intro ht
      have := congrArg List.length ht
      simp only [List.length_take, List.length_nil] at this
      omega
    rcases List.append_eq_nil.1 hX with ⟨_, h2⟩
    exact htake h2
  · intro c hc
    exact hdig c (List.mem_of_mem_drop hc)
  · rw [List.append_assoc, List.take_append_drop]
    by_cases hneg : r.val < 0
    · rw [if_pos hneg]
      rw [show (['-'] ++ digs : List Char) = '-' :: digs by rfl]
      rw [bigIntFromStr_neg_digits digs r.val.natAbs hval]
      congr 1
      omega
    · rw [if_neg hneg]
      rw [List.nil_append]
      rw [bigIntFromStr_digits digs r.val.natAbs hne hdig hval]
      congr 1
      omega

/-- `NewFromString` inverts `StringFixed(2)` up to the representation with
exponent `-2`. -/
theorem fromStr_stringFixed2 (d : Dec) :
    Dec.fromStr (Dec.stringFixed2 d) = .ok (d.round2) := by
  obtain ⟨X, Y, hXY, hnX, hnY, hYlen, hXne, _, hbig⟩ := stringFixed2_decomp d
  rw [hXY]
  unfold Dec.fromStr
  rw [splitAll_one_sep '.' X Y hnX hnY]
  dsimp only
  rw [hbig]
  have hexp : (d.round2).exp = -2 := Dec.round2_exp d
  have : d.round2 = ⟨(d.round2).val, -2⟩ := by
    cases hcase : d.round2 with
    | mk v e =>
      rw [hcase] at hexp
      simp at hexp
      simp [hexp]
  rw [this]
  rw [hYlen]
  rfl

theorem digitsVal_isSome (cs : List Char) (hne : cs ≠ [])
    (hdig : ∀ c ∈ cs, isDigitCh c = true) : ∃ n, digitsVal cs = some n := by
  unfold digitsVal
  rw [if_neg (by simpa [List.isEmpty_iff] using hne)]
  rw [digitsValCore_all_digits _ _ hdig]
  exact ⟨_, rfl⟩

theorem bigIntFromStr_ok (neg : Bool) (cs : List Char) (hne : cs ≠ [])
    (hdig : ∀ c ∈ cs, isDigitCh c = true) :
    ∃ v, bigIntFromStr ((if neg then ['-'] else []) ++ cs) = some v := by
  obtain ⟨n, hn⟩ := digitsVal_isSome cs hne hdig
  cases neg
  · rw [if_neg (by simp), List.nil_append]
    exact ⟨n, bigIntFromStr_digits cs n hne hdig hn⟩
  · rw [if_pos rfl]
    exact ⟨-(n : ℤ), bigIntFromStr_neg_digits cs n hn⟩

theorem intRepr_shape (m : ℤ) :
    intRepr m = (if m < 0 then ['-'] else []) ++ natRepr m.natAbs := by
  unfold intRepr
  by_cases h : m < 0
  · rw [if_pos h, if_pos h]; rfl
  · rw [if_neg h, if_neg h]; rfl

/-- `NewFromString` accepts every `String()` rendering. -/
theorem fromStr_toStr_ok (d : Dec) : ∃ v, Dec.fromStr (Dec.toStr d) = .ok v := by
  unfold Dec.toStr
  by_cases hexp : (0 : ℤ) ≤ d.exp
  · rw [if_pos hexp]
    set m := (d.rescale 0).val with hm
    have hnodot : '.' ∉ intRepr m := by
      rw [intRepr_shape]
      intro hmem
      rcases List.mem_append.1 hmem with hmem | hmem
      · by_cases hneg : m < 0
        · rw [if_pos hneg] at hmem; simp at hmem
        · rw [if_neg hneg] at hmem; simp at hmem
      · exact digit_ne_dot (natRepr_all_digits m.natAbs _ hmem) rfl
    unfold Dec.fromStr
    rw [splitAll_no_sep '.' _ hnodot]
    rw [intRepr_shape]
    obtain ⟨v, hv⟩ := bigIntFromStr_ok (decide (m < 0)) (natRepr m.natAbs)
      (natRepr_ne_nil _) (natRepr_all_digits _)
    rw [show (if m < 0 then ['-'] else [] : List Char)
        = (if decide (m < 0) then ['-'] else []) by simp]
    dsimp only
    rw [hv]
    exact ⟨⟨v, 0⟩, rfl⟩
  · rw [if_neg hexp]
    dsimp only
    set str := natRepr d.val.natAbs with hstr
    set k := (-d.exp).toNat with hk
    set ip := if k < str.length then str.take (str.length - k) else ['0'] with hip
    set fp0 := if k < str.length then str.drop (str.length - k)
      else List.replicate (k - str.length) '0' ++ str with hfp0
    set fp := (fp0.reverse.dropWhile (fun c => c == '0')).reverse with hfp
    have hipdig : ∀ c ∈ ip, isDigitCh c = true := by
      intro c hc
      rw [hip] at hc
      by_cases hkl : k < str.length
      · rw [if_pos hkl] at hc
        exact natRepr_all_digits _ _ (List.mem_of_mem_take hc)
      · rw [if_neg hkl] at hc
        simp only [List.mem_singleton] at hc
        subst hc
        decide
    have hipne : ip ≠ [] := by
      rw [hip]
      by_cases hkl : k < str.length
      · rw [if_pos hkl]
        intro ht
        have := congrArg List.length ht
        simp only [List.length_take, List.length_nil] at this
        have := natRepr_ne_nil d.val.natAbs
        have hpos : 0 < str.length := List.length_pos.2 (by rw [hstr]; exact natRepr_ne_nil _)
        omega
      · rw [if_neg hkl]
        simp
    have hfpdig : ∀ c ∈ fp, isDigitCh c = true := by
      intro c hc
      rw [hfp] at hc
      have hc0 : c ∈ fp0 := by
        have h1 : c ∈ fp0.reverse.dropWhile (fun c => c == '0') :=
          List.mem_reverse.1 hc
        have h2 : c ∈ fp0.reverse := (List.dropWhile_sublist _).mem h1
        exact List.mem_reverse.1 h2
      rw [hfp0] at hc0
      by_cases hkl : k < str.length
      · rw [if_pos hkl] at hc0
        exact natRepr_all_digits _ _ (List.mem_of_mem_drop hc0)
      · rw [if_neg hkl] at hc0
        rcases List.mem_append.1 hc0 with hm | hm
        · rw [List.eq_of_mem_replicate hm]; decide
        · exact natRepr_all_digits _ _ hm
    have hXdig : ∀ c ∈ (if d.val < 0 then ['-'] else []) ++ ip, c ≠ '.' := by
      intro c hc
      rcases List.mem_append.1 hc with hm | hm
      · by_cases hneg : d.val < 0
        · rw [if_pos hneg] at hm
          simp only [List.mem_singleton] at hm
          subst hm
          decide
        · rw [if_neg hneg] at hm; simp at hm
      · exact digit_ne_dot (hipdig c hm)
    by_cases hfpe : fp.isEmpty
    · rw [if_pos hfpe]
      have hnodot : '.' ∉ (if d.val < 0 then ['-'] else []) ++ ip := by
        intro hmem
        exact hXdig '.' hmem rfl
      unfold Dec.fromStr
      rw [List.append_nil, splitAll_no_sep '.' _ hnodot]
      obtain ⟨v, hv⟩ := bigIntFromStr_ok (decide (d.val < 0)) ip hipne hipdig
      rw [show (if d.val < 0 then ['-'] else [] : List Char)
          = (if decide (d.val < 0) then ['-'] else []) by simp]
      dsimp only
      rw [hv]
      exact ⟨⟨v, 0⟩, rfl⟩
    · rw [if_neg hfpe]
      have hnodotX : '.' ∉ (if d.val < 0 then ['-'] else []) ++ ip := by
        intro hmem
        exact hXdig '.' hmem rfl
      have hnodotY : '.' ∉ fp := by
        intro hmem
        exact digit_ne_dot (hfpdig _ hmem) rfl
      unfold Dec.fromStr
      rw [show ((if d.val < 0 then ['-'] else []) ++ ip ++ '.' :: fp : List Char)
          = ((if d.val < 0 then ['-'] else []) ++ ip) ++ '.' :: fp by simp]
      rw [splitAll_one_sep '.' _ _ hnodotX hnodotY]
      dsimp only
      rw [List.append_assoc]
      obtain ⟨v, hv⟩ := bigIntFromStr_ok (decide (d.val < 0)) (ip ++ fp)
        (by intro hh; exact hipne (List.append_eq_nil.1 hh).1)
        (by intro c hc; rcases List.mem_append.1 hc with hm | hm
            · exact hipdig c hm
            · exact hfpdig c hm)
      rw [show (if d.val < 0 then ['-'] else [] : List Char)
          = (if decide (d.val < 0) then ['-'] else []) by simp]
      rw [hv]
      exact ⟨_, rfl⟩

/-! ### Date and integer round trips -/
theorem natDigitsAux_length_le : ∀ (w fuel n : ℕ), n ≤ fuel → n < 10 ^ w →
    (natDigitsAux fuel n).length ≤ w := by
  intro w
  induction w with
  | zero =>
    intro fuel n hle hlt
    have : n = 0 := by simpa using hlt
    subst this
    cases fuel <;> simp [natDigitsAux]
  | succ w ih =>
    intro fuel n hle hlt
    cases fuel with
    | zero =>
      have : n = 0 := by omega
      subst this
      simp [natDigitsAux]
    | succ f =>
      by_cases h0 : n = 0
      · simp [natDigitsAux, h0]
      · simp only [natDigitsAux, if_neg h0, List.length_cons]
        have h1 : n / 10 ≤ f := by
          have : n / 10 < n := Nat.div_lt_self (Nat.pos_of_ne_zero h0) (by norm_num)
          omega
        have h2 : n / 10 < 10 ^ w := by
          rw [Nat.div_lt_iff_lt_mul (by norm_num)]
          calc n < 10 ^ (w + 1) := hlt
            _ = 10 ^ w * 10 := by ring
        have := ih f (n / 10) h1 h2
        omega

theorem natRepr_length_le (w n : ℕ) (hw : 1 ≤ w) (h : n < 10 ^ w) :
    (natRepr n).length ≤ w := by
  unfold natRepr
  by_cases h0 : n = 0
  · simp [h0]; omega
  · rw [if_neg h0]
    simp only [List.length_map, List.length_reverse]
    exact natDigitsAux_length_le w n n le_rfl h

theorem padNat_length_exact (w n : ℕ) (hw : 1 ≤ w) (h : n < 10 ^ w) :
    (padNat w n).length = w := by
  unfold padNat
  simp only [List.length_append, List.length_replicate]
  have := natRepr_length_le w n hw h
  omega

theorem list_len_two {α : Type} (l : List α) (h : l.length = 2) :
    ∃ a b, l = [a, b] := by
  cases l with
  | nil => simp at h
  | cons a t =>
    cases t with
    | nil => simp at h
    | cons b t2 =>
      cases t2 with
      | nil => exact ⟨a, b, rfl⟩
      | cons c t3 => simp at h

theorem list_len_four {α : Type} (l : List α) (h : l.length = 4) :
    ∃ a b c d, l = [a, b, c, d] := by
  cases l with
  | nil => simp at h
  | cons a t =>
    have ht : t.length = 3 := by simpa using h
    cases t with
    | nil => simp at ht
    | cons b t2 =>
      have ht2 : t2.length = 2 := by simpa using ht
      obtain ⟨c, d, rfl⟩ := list_len_two t2 ht2
      exact ⟨a, b, c, d, rfl⟩

/-- The parsed value of an all-digit list, written as the nested arithmetic
the date parser performs. -/
theorem digitsVal_two (a b : Char) (n : ℕ)
    (ha : isDigitCh a = true) (hb : isDigitCh b = true)
    (h : digitsVal [a, b] = some n) :
    digitVal a * 10 + digitVal b = n := by
  unfold digitsVal at h
  rw [if_neg (by simp)] at h
  rw [digitsValCore_all_digits _ _ (by
    intro c hc
    rcases List.mem_cons.1 hc with rfl | hc
    · exact ha
    · simp only [List.mem_singleton] at hc
      subst hc
      exact hb)] at h
  simp only [List.foldl_cons, List.foldl_nil, Option.some_inj] at h
  omega

theorem digitsVal_four (a b c d : Char) (n : ℕ)
    (ha : isDigitCh a = true) (hb : isDigitCh b = true)
    (hc : isDigitCh c = true) (hd : isDigitCh d = true)
    (h : digitsVal [a, b, c, d] = some n) :
    ((digitVal a * 10 + digitVal b) * 10 + digitVal c) * 10 + digitVal d = n := by
  unfold digitsVal at h
  rw [if_neg (by simp)] at h
  rw [digitsValCore_all_digits _ _ (by
    intro x hx
    rcases List.mem_cons.1 hx with rfl | hx
    · exact ha
    rcases List.mem_cons.1 hx with rfl | hx
    · exact hb
    rcases List.mem_cons.1 hx with rfl | hx
    · exact hc
    simp only [List.mem_singleton] at hx
    subst hx
    exact hd)] at h
  simp only [List.foldl_cons, List.foldl_nil, Option.some_inj] at h
  omega

theorem daysInMonth_le (y m : ℤ) : daysInMonth y m ≤ 31 := by
  unfold daysInMonth
  split_ifs <;> norm_num

theorem daysInMonth_pos (y m : ℤ) : 1 ≤ daysInMonth y m := by
  unfold daysInMonth
  split_ifs <;> norm_num

/-- `time.Parse("2006-01-02", t.Format("2006-01-02")) = t` on the valid
range. -/
theorem parseGoDate_formatDate (d : GDate) (h : d.inRange) :
    parseGoDate (formatDate d) = .ok d := by
  obtain ⟨hy0, hy1, hm0, hm1, hd0, hd1⟩ := h
  have h31 := daysInMonth_le d.year d.month
  have hyA : padInt 4 d.year = padNat 4 d.year.natAbs := by
    unfold padInt
    rw [if_neg (by omega)]
  have hmA : padInt 2 d.month = padNat 2 d.month.natAbs := by
    unfold padInt
    rw [if_neg (by omega)]
  have hdA : padInt 2 d.day = padNat 2 d.day.natAbs := by
    unfold padInt
    rw [if_neg (by omega)]
  have hp4 : (10 : ℕ) ^ 4 = 10000 := by norm_num
  have hp2 : (10 : ℕ) ^ 2 = 100 := by norm_num
  have hylt : d.year.natAbs < 10 ^ 4 := by omega
  have hmlt : d.month.natAbs < 10 ^ 2 := by omega
  have hdlt : d.day.natAbs < 10 ^ 2 := by omega
  obtain ⟨y1, y2, y3, y4, hy⟩ :=
    list_len_four _ (padNat_length_exact 4 d.year.natAbs (by norm_num) hylt)
  obtain ⟨m1, m2, hm⟩ :=
    list_len_two _ (padNat_length_exact 2 d.month.natAbs (by norm_num) hmlt)
  obtain ⟨e1, e2, hd⟩ :=
    list_len_two _ (padNat_length_exact 2 d.day.natAbs (by norm_num) hdlt)
  have hyd := padNat_all_digits 4 d.year.natAbs
  have hmd := padNat_all_digits 2 d.month.natAbs
  have hdd := padNat_all_digits 2 d.day.natAbs
  rw [hy] at hyd
  rw [hm] at hmd
  rw [hd] at hdd
  have hy1 : isDigitCh y1 = true := hyd y1 (by simp)
  have hy2 : isDigitCh y2 = true := hyd y2 (by simp)
  have hy3 : isDigitCh y3 = true := hyd y3 (by simp)
  have hy4 : isDigitCh y4 = true := hyd y4 (by simp)
  have hm1d : isDigitCh m1 = true := hmd m1 (by simp)
  have hm2d : isDigitCh m2 = true := hmd m2 (by simp)
  have he1d : isDigitCh e1 = true := hdd e1 (by simp)
  have he2d : isDigitCh e2 = true := hdd e2 (by simp)
  have hyval : ((digitVal y1 * 10 + digitVal y2) * 10 + digitVal y3) * 10 + digitVal y4
      = d.year.natAbs := by
    apply digitsVal_four y1 y2 y3 y4 _ hy1 hy2 hy3 hy4
    rw [← hy]
    exact digitsVal_padNat 4 d.year.natAbs
  have hmval : digitVal m1 * 10 + digitVal m2 = d.month.natAbs := by
    apply digitsVal_two m1 m2 _ hm1d hm2d
    rw [← hm]
    exact digitsVal_padNat 2 d.month.natAbs
  have hdval : digitVal e1 * 10 + digitVal e2 = d.day.natAbs := by
    apply digitsVal_two e1 e2 _ he1d he2d
    rw [← hd]
    exact digitsVal_padNat 2 d.day.natAbs
  have hdata : (formatDate d).data
      = [y1, y2, y3, y4, '-', m1, m2, '-', e1, e2] := by
    show padInt 4 d.year ++ '-' :: padInt 2 d.month ++ '-' :: padInt 2 d.day = _
    rw [hyA, hmA, hdA, hy, hm, hd]
    rfl
  unfold parseGoDate
  rw [hdata]
  split
  · rename_i a1 a2 a3 a4 a5 a6 a7 a8 heq
    simp only [List.cons.injEq, and_true] at heq
    obtain ⟨h1, h2, h3, h4, -, h5, h6, -, h7, h8⟩ := heq
    subst h1
    subst h2
    subst h3
    subst h4
    subst h5
    subst h6
    subst h7
    subst h8
    rw [hy1, hy2, hy3, hy4, hm1d, hm2d, he1d, he2d]
    simp only [Bool.and_self, if_true]
    have hyz : ((((((digitVal y1 * 10 + digitVal y2) * 10 + digitVal y3) * 10
        + digitVal y4 : ℕ)) : ℤ)) = d.year := by
      rw [hyval]
      omega
    have hmz : (((digitVal m1 * 10 + digitVal m2 : ℕ) : ℤ)) = d.month := by
      rw [hmval]
      omega
    have hdz : (((digitVal e1 * 10 + digitVal e2 : ℕ) : ℤ)) = d.day := by
      rw [hdval]
      omega
    rw [hyz, hmz, hdz]
    rw [if_neg (by omega), if_neg (by omega)]
  · rename_i hno
    exact (hno y1 y2 y3 y4 m1 m2 e1 e2 rfl).elim

/-- `strconv.Atoi` inverts `strconv.Itoa` on the 64-bit range. -/
theorem atoi_intRepr (a : ℤ) (h1 : -(2 ^ 63) ≤ a) (h2 : a ≤ 2 ^ 63 - 1) :
    atoi (intRepr a) = .ok a := by
  have hdv := digitsVal_natRepr a.natAbs
  by_cases hneg : a < 0
  · have : intRepr a = '-' :: natRepr a.natAbs := by
      unfold intRepr
      rw [if_pos hneg]
    rw [this]
    unfold atoi
    dsimp only
    rw [if_pos rfl, hdv]
    dsimp only
    rw [if_pos (show a.natAbs ≤ 2 ^ 63 by omega)]
    have habs : ((a.natAbs : ℤ)) = -a := by omega
    rw [habs]
    norm_num
  · have hsh : intRepr a = natRepr a.natAbs := by
      unfold intRepr
      rw [if_neg hneg]
    obtain ⟨c, t, hct⟩ : ∃ c t, natRepr a.natAbs = c :: t := by
      cases hcase : natRepr a.natAbs with
      | nil => exact absurd hcase (natRepr_ne_nil _)
      | cons c t => exact ⟨c, t, rfl⟩
    have hc : isDigitCh c = true := by
      apply natRepr_all_digits a.natAbs
      rw [hct]
      simp
    rw [hsh, hct]
    unfold atoi
    dsimp only
    rw [if_neg (digit_ne_dash hc), if_neg (digit_ne_plus hc)]
    rw [← hct, hdv]
    dsimp only
    rw [if_neg (by simp), if_pos (show a.natAbs ≤ 2 ^ 63 - 1 by omega)]
    congr 1
    omega

theorem Dec.zero_eqb {d : Dec} (h : d.isZero = true) : Dec.zero.eqb d = true := by
  rw [Dec.eqb_iff]
  unfold Dec.isZero at h
  rw [beq_iff_eq] at h
  simp [Dec.zero, h]

theorem stringFixed2_ne_empty (d : Dec) : String.mk d.stringFixed2 ≠ "" := by
  obtain ⟨X, Y, hXY, _, _, _, _, _, _⟩ := stringFixed2_decomp d
  intro hcon
  have : d.stringFixed2 = [] := congrArg String.data hcon
  rw [hXY] at this
  exact (List.append_ne_nil_of_right_ne_nil X (by simp)) this

theorem unmarshal_cell_dec (d : Dec) (hd : d.twoPlaces = true) :
    ∃ v, (if (if d.isZero then "" else String.mk d.stringFixed2) = ""
          then Except.ok Dec.zero
          else Dec.fromStr (if d.isZero then ("" : String)
            else String.mk d.stringFixed2).data) = .ok v
      ∧ v.eqb d = true := by
  by_cases hz : d.isZero
  · refine ⟨Dec.zero, ?_, Dec.zero_eqb hz⟩
    rw [if_pos hz, if_pos rfl]
  · refine ⟨d.round2, ?_, Dec.round2_eqb_self d (by simpa using hd)⟩
    rw [if_neg hz, if_neg (stringFixed2_ne_empty d)]
    exact fromStr_stringFixed2 d

theorem toStr_ne_nil (d : Dec) : d.toStr ≠ [] := by
  unfold Dec.toStr
  by_cases hexp : (0 : ℤ) ≤ d.exp
  · rw [if_pos hexp]
    unfold intRepr
    by_cases hneg : (d.rescale 0).val < 0
    · rw [if_pos hneg]
      simp
    · rw [if_neg hneg]
      exact natRepr_ne_nil _
  · rw [if_neg hexp]
    dsimp only
    intro hcon
    have h1 := (List.append_eq_nil.1 hcon).1
    have h2 := (List.append_eq_nil.1 h1).2
    by_cases hkl : (-d.exp).toNat < (natRepr d.val.natAbs).length
    · rw [if_pos hkl] at h2
      have := congrArg List.length h2
      simp only [List.length_take, List.length_nil] at this
      have hpos : 0 < (natRepr d.val.natAbs).length :=
        List.length_pos.2 (natRepr_ne_nil _)
      omega
    · rw [if_neg hkl] at h2
      simp at h2

theorem unmarshal_cell_conf (d : Dec) :
    ∃ v, (if (if d.isZero then "" else String.mk d.toStr) = ""
          then Except.ok Dec.zero
          else Dec.fromStr (if d.isZero then ("" : String)
            else String.mk d.toStr).data) = .ok v := by
  by_cases hz : d.isZero
  · refine ⟨Dec.zero, ?_⟩
    rw [if_pos hz, if_pos rfl]
  · obtain ⟨v, hv⟩ := fromStr_toStr_ok d
    have hem : ¬ (String.mk d.toStr = "") :=
      fun h => toStr_ne_nil d (congrArg String.data h)
    refine ⟨v, ?_⟩
    rw [if_neg hz, if_neg hem]
    exact hv

/-- Claim C7: for a leg whose debit and credit each have at most two decimal
places (and whose date and account id a Go `time.Time`/`int` can hold: a
valid calendar date with a four-digit year, a 64-bit account id),
`MarshalLeg` renders a zero debit/credit as the empty cell and a non-zero
one with exactly two digits after the single decimal point, and
`UnmarshalLeg` applied to the marshalled row succeeds and recovers a debit
and credit exactly equal (decimal equality) to the originals. -/
theorem marshal_unmarshal_roundtrip (leg : Leg)
    (hdeb : leg.debit.twoPlaces = true) (hcred : leg.credit.twoPlaces = true)
    (hdate : leg.date.inRange)
    (hacct1 : -(2 ^ 63) ≤ leg.accountID) (hacct2 : leg.accountID ≤ 2 ^ 63 - 1) :
    (((marshalLeg leg).getD 4 "" = "") ↔ leg.debit.isZero = true)
    ∧ (((marshalLeg leg).getD 5 "" = "") ↔ leg.credit.isZero = true)
    ∧ (leg.debit.isZero = false →
        ∃ X d1 d2, ((marshalLeg leg).getD 4 "").data = X ++ ['.', d1, d2]
          ∧ isDigitCh d1 = true ∧ isDigitCh d2 = true ∧ '.' ∉ X)
    ∧ (leg.credit.isZero = false →
        ∃ X d1 d2, ((marshalLeg leg).getD 5 "").data = X ++ ['.', d1, d2]
          ∧ isDigitCh d1 = true ∧ isDigitCh d2 = true ∧ '.' ∉ X)
    ∧ (∃ leg2, unmarshalLeg (marshalLeg leg) = .ok leg2
        ∧ leg2.debit.eqb leg.debit = true ∧ leg2.credit.eqb leg.credit = true) := by
  have hcell4 : (marshalLeg leg).getD 4 ""
      = (if leg.debit.isZero then "" else String.mk leg.debit.stringFixed2) := rfl
  have hcell5 : (marshalLeg leg).getD 5 ""
      = (if leg.credit.isZero then "" else String.mk leg.credit.stringFixed2) := rfl
  have hshape : ∀ d : Dec,
      ∃ X d1 d2, (String.mk d.stringFixed2).data = X ++ ['.', d1, d2]
        ∧ isDigitCh d1 = true ∧ isDigitCh d2 = true ∧ '.' ∉ X := by
    intro d
    obtain ⟨X, Y, hXY, hnX, _, hYlen, _, hYdig, _⟩ := stringFixed2_decomp d
    obtain ⟨d1, d2, rfl⟩ := list_len_two Y hYlen
    exact ⟨X, d1, d2, by simpa using hXY, hYdig d1 (by simp), hYdig d2 (by simp), hnX⟩
  refine ⟨?_, ?_, ?_, ?_, ?_⟩
  · rw [hcell4]
    by_cases hz : leg.debit.isZero
    · simp [hz]
    · rw [if_neg hz]
      constructor
      · intro h
        exact absurd h (stringFixed2_ne_empty leg.debit)
      · intro h
        exact absurd h hz
  · rw [hcell5]
    by_cases hz : leg.credit.isZero
    · simp [hz]
    · rw [if_neg hz]
      constructor
      · intro h
        exact absurd h (stringFixed2_ne_empty leg.credit)
      · intro h
        exact absurd h hz
  · intro hz
    rw [hcell4, if_neg (by simp [hz])]
    exact hshape leg.debit
  · intro hz
    rw [hcell5, if_neg (by simp [hz])]
    exact hshape leg.credit
  · obtain ⟨vD, hvD, heqD⟩ := unmarshal_cell_dec leg.debit hdeb
    obtain ⟨vC, hvC, heqC⟩ := unmarshal_cell_dec leg.credit hcred
    obtain ⟨vF, hvF⟩ := unmarshal_cell_conf leg.confidence
    unfold marshalLeg unmarshalLeg
    dsimp only
    rw [parseGoDate_formatDate leg.date hdate]
    rw [atoi_intRepr leg.accountID hacct1 hacct2]
    rw [hvD, hvC, hvF]
    exact ⟨_, rfl, heqD, heqC⟩

/-- Witness for C7 at `legRound`. -/
theorem marshal_unmarshal_roundtrip_witness :
    legRound.debit.twoPlaces = true ∧ legRound.credit.twoPlaces = true
    ∧ legRound.date.inRange
    ∧ -(2 ^ 63) ≤ legRound.accountID ∧ legRound.accountID ≤ 2 ^ 63 - 1
    ∧ (∃ leg2, unmarshalLeg (marshalLeg legRound) = .ok leg2
        ∧ leg2.debit.eqb legRound.debit = true
        ∧ leg2.credit.eqb legRound.credit = true) :=
  ⟨by decide, by decide,
    ⟨by decide, by decide, by decide, by decide, by decide, by decide⟩,
    by decide, by decide,
    (marshal_unmarshal_roundtrip legRound (by decide) (by decide)
      ⟨by decide, by decide, by decide, by decide, by decide, by decide⟩
      (by decide) (by decide)).2.2.2.2⟩

/-- Claim C8: for every callback, an unregistered method is answered with a
code `-32601` error naming it; a handler error is answered with code
`-32000` carrying the error message; otherwise the host replies with the
handler's result and no error. -/
theorem handleCallback_dispatch (handlers : List (String × PrimitiveHandler))
    (msg : CallbackMsg) :
    (lookupHandler handlers msg.method = none →
      handleCallback handlers msg
        = ⟨JVal.null, some ⟨-32601, "unknown primitive: " ++ msg.method⟩, msg.id⟩)
    ∧ (∀ handler e, lookupHandler handlers msg.method = some handler →
        handler msg.args msg.kwargs = .error e →
        handleCallback handlers msg = ⟨JVal.null, some ⟨-32000, e⟩, msg.id⟩)
    ∧ (∀ handler v, lookupHandler handlers msg.method = some handler →
        handler msg.args msg.kwargs = .ok v →
        handleCallback handlers msg = ⟨v, none, msg.id⟩) := by
  refine ⟨?_, ?_, ?_⟩
  · intro hnone
    unfold handleCallback
    rw [hnone]
  · intro handler e hsome herr
    unfold handleCallback
    rw [hsome]
    dsimp only
    rw [herr]
  · intro handler v hsome hok
    unfold handleCallback
    rw [hsome]
    dsimp only
    rw [hok]

/-- Witness for C8: all three dispatch outcomes at concrete callbacks. -/
theorem handleCallback_dispatch_witness :
    handleCallback handlersW ⟨"nope", [], [], JVal.num 7⟩
      = ⟨JVal.null, some ⟨-32601, "unknown primitive: " ++ "nope"⟩, JVal.num 7⟩
    ∧ handleCallback handlersW ⟨"boom", [], [], JVal.num 8⟩
      = ⟨JVal.null, some ⟨-32000, "kaputt"⟩, JVal.num 8⟩
    ∧ handleCallback handlersW ⟨"ping", [], [], JVal.num 9⟩
      = ⟨JVal.str "pong", none, JVal.num 9⟩ :=
  ⟨(handleCallback_dispatch handlersW ⟨"nope", [], [], JVal.num 7⟩).1 rfl,
   (handleCallback_dispatch handlersW ⟨"boom", [], [], JVal.num 8⟩).2.1 _ "kaputt" rfl rfl,
   (handleCallback_dispatch handlersW ⟨"ping", [], [], JVal.num 9⟩).2.2 _ (JVal.str "pong") rfl rfl⟩

/-- Claim C10: when the `status` keyword argument is absent, null, not a
string, or the empty string, a successful `journal_add_double` persists its
two new legs with status `pending-review`. -/
theorem journalAddDouble_status_default (accountExists : ℤ → Bool)
    (kwargs : List (String × JVal)) (file : Option (List Leg))
    (hstatus : lookupKw kwargs "status" = none
      ∨ lookupKw kwargs "status" = some JVal.null
      ∨ (∀ s : String, lookupKw kwargs "status" ≠ some (JVal.str s))
      ∨ lookupKw kwargs "status" = some (JVal.str "")) :
    ∀ r, (journalAddDouble accountExists kwargs file).1 = .ok r →
      ∃ l1 l2, (journalAddDouble accountExists kwargs file).2
          = some (readMonth file ++ [l1, l2])
        ∧ l1.status = statusPendingReview ∧ l2.status = statusPendingReview := by
  intro r hok
  have hstr : (match lookupKw kwargs "status" with
      | some (.str s) => s
      | _ => "") = "" := by
    rcases hstatus with h | h | h | h
    · rw [h]
    · rw [h]
    · cases hv : lookupKw kwargs "status" with
      | none => rfl
      | some v =>
        cases v with
        | str s => exact absurd hv (h s)
        | null => rfl
        | bool b => rfl
        | num n => rfl
        | arr l => rfl
        | obj l => rfl
    · rw [h]
  unfold journalAddDouble at hok ⊢
  cases hd : parseDateArg (lookupKw kwargs "date") with
  | error e =>
    rw [hd] at hok
    simp at hok
  | ok date =>
    rw [hd] at hok
    dsimp only at hok ⊢
    cases ha : parseDecimalArg (lookupKw kwargs "amount") with
    | error e =>
      rw [ha] at hok
      simp at hok
    | ok amount =>
      rw [ha] at hok
      dsimp only at hok ⊢
      rw [hstr] at hok ⊢
      rw [if_pos rfl] at hok ⊢
      rw [addDouble_eq] at hok ⊢
      dsimp only at hok ⊢
      by_cases hv : validateLegs
          (readMonth file ++ synthLegs
            { date := date,
              description := stringArgKw kwargs "description",
              debitAccount := intArgKw kwargs "debit_account",
              creditAccount := intArgKw kwargs "credit_account",
              amount := amount,
              counterparty := stringArgKw kwargs "counterparty",
              reference := stringArgKw kwargs "reference",
              confidence := match parseDecimalArg (lookupKw kwargs "confidence") with
                | .ok c => c
                | .error _ => Dec.zero,
              status := statusPendingReview,
              evidence := stringArgKw kwargs "evidence",
              tags := stringArgKw kwargs "tags",
              notes := stringArgKw kwargs "notes" }
            (formatEntryID date.year date.month (nextEntrySeq (readMonth file))))
          accountExists date.year date.month = []
      · rw [if_pos hv] at hok ⊢
        dsimp only at hok ⊢
        refine ⟨_, _, rfl, rfl, rfl⟩
      · rw [if_neg hv] at hok
        simp at hok

/-- Concrete instantiation: a `journal_add_double` call with no `status`
keyword succeeds and persists both legs as `pending-review`. -/
theorem journalAddDouble_status_default_witness :
    ∃ l1 l2,
      (journalAddDouble (fun i => i == 1000 || i == 2000)
          [("date", JVal.str "2025-01-15"), ("amount", JVal.str "100.00"),
           ("debit_account", JVal.num 1000), ("credit_account", JVal.num 2000)]
          none).2
        = some (readMonth none ++ [l1, l2])
      ∧ l1.status = statusPendingReview ∧ l2.status = statusPendingReview :=
  journalAddDouble_status_default
    (fun i => i == 1000 || i == 2000)
    [("date", JVal.str "2025-01-15"), ("amount", JVal.str "100.00"),
     ("debit_account", JVal.num 1000), ("credit_account", JVal.num 2000)]
    none
    (Or.inl rfl)
    (JVal.obj [("entry_id", JVal.str "2025-01-001"), ("success", JVal.bool true)])
    (by rfl)
